import Mathlib

/-! Embedded Firmware Structure lookup (pkg/amd/manifest).

A shallow embedding of `embedded_firmware_structure.go`:

* `EmbeddedFirmwareStructure`, the record declared at lines 23-35;
* `ParseEmbeddedFirmwareStructure` (lines 66-76), which calls `binary.Read` with
  little-endian order on a reader and then compares the signature field;
* `FindEmbeddedFirmwareStructure` (lines 38-63), which probes six physical addresses.

Machine integers are natural numbers; `uint64` arithmetic is reduced modulo `2 ^ 64`
where the source can wrap.  Run-time panics of Go (slice bounds, index out of range)
are the `Except.error` results of type `Panic`.  A reader is a `bytes.Buffer`, given by
its unread bytes, and every reading function returns the reader it leaves behind.
-/

namespace Fiano

/-- One octet of an image. -/
abbrev Byte := Fin 256

/-- Constant `EmbeddedFirmwareStructureSignature` (line 20). -/
def EmbeddedFirmwareStructureSignature : Nat := 0x55aa55aa

/-- Record `EmbeddedFirmwareStructure` (lines 23-35).  The `uint32` fields are naturals,
the `[16]byte` and `[30]byte` arrays are byte lists. -/
structure EmbeddedFirmwareStructure where
  Signature : Nat
  Reserved1 : List Byte
  PSPDirectoryTablePointer : Nat
  BIOSDirectoryTableFamily17hModels00h0FhPointer : Nat
  BIOSDirectoryTableFamily17hModels10h1FhPointer : Nat
  BIOSDirectoryTableFamily17hModels30h3FhPointer : Nat
  Reserved2 : Nat
  BIOSDirectoryTableFamily17hModels60h3FhPointer : Nat
  Reserved3 : List Byte
  deriving DecidableEq, Repr

/-- The values that inhabit the Go type: every `uint32` field is below `2 ^ 32` and the
two arrays have their declared lengths. -/
def EmbeddedFirmwareStructure.WellTyped (s : EmbeddedFirmwareStructure) : Prop :=
  s.Signature < 2 ^ 32 ∧ s.Reserved1.length = 16 ∧
  s.PSPDirectoryTablePointer < 2 ^ 32 ∧
  s.BIOSDirectoryTableFamily17hModels00h0FhPointer < 2 ^ 32 ∧
  s.BIOSDirectoryTableFamily17hModels10h1FhPointer < 2 ^ 32 ∧
  s.BIOSDirectoryTableFamily17hModels30h3FhPointer < 2 ^ 32 ∧
  s.Reserved2 < 2 ^ 32 ∧
  s.BIOSDirectoryTableFamily17hModels60h3FhPointer < 2 ^ 32 ∧
  s.Reserved3.length = 30

instance (s : EmbeddedFirmwareStructure) : Decidable s.WellTyped := by
  unfold EmbeddedFirmwareStructure.WellTyped; infer_instance

/-- Result of `binary.Size` on an `EmbeddedFirmwareStructure`: the sum of the sizes of
its fields in declared order (`uint32` is 4, `[n]byte` is `n`). -/
def binarySize : Nat := 4 + 16 + 4 + 4 + 4 + 4 + 4 + 4 + 30

/-- Type `bytes2.Range`. -/
structure Range where
  Offset : Nat
  Length : Nat
  deriving DecidableEq, Repr

/-- The errors the two functions can return: `io.EOF`, `io.ErrUnexpectedEOF`, and the two
`fmt.Errorf` values of lines 62 and 73. -/
inductive Error where
  | EOF
  | ErrUnexpectedEOF
  | incorrectSignature (v : Nat)
  | notFound
  deriving DecidableEq, Repr

/-- Text of an error (`Error()` in Go); `%d` prints the value in decimal. -/
def Error.message : Error → String
  | .EOF => "EOF"
  | .ErrUnexpectedEOF => "unexpected EOF"
  | .incorrectSignature v => "incorrect signature: " ++ Nat.repr v
  | .notFound => "EmbeddedFirmwareStructure is not found"

/-- Run-time panics of Go that the code can raise. -/
inductive Panic where
  | sliceBoundsOutOfRange
  | indexOutOfRange
  deriving DecidableEq, Repr

/-- Equality of `Except` values is decidable. -/
instance instDecidableEqExcept {ε α : Type} [DecidableEq ε] [DecidableEq α] :
    DecidableEq (Except ε α)
  | .ok a, .ok b => if h : a = b then isTrue (by rw [h]) else isFalse (fun h1 => h (Except.ok.inj h1))
  | .error a, .error b =>
    if h : a = b then isTrue (by rw [h]) else isFalse (fun h1 => h (Except.error.inj h1))
  | .ok _, .error _ => isFalse (fun h => by cases h)
  | .error _, .ok _ => isFalse (fun h => by cases h)

/-- Interface `Firmware`: the image bytes and the address translation.  The translation
returns a `uint64`; callers reduce its result modulo `2 ^ 64`. -/
structure Firmware where
  ImageBytes : List Byte
  PhysAddrToOffset : Nat → Nat

/-- Little-endian value of four bytes: `b0 | b1<<8 | b2<<16 | b3<<24`. -/
def le32 (b0 b1 b2 b3 : Byte) : Nat :=
  b0.val ||| b1.val <<< 8 ||| b2.val <<< 16 ||| b3.val <<< 24

/-- Function `binary.LittleEndian.Uint32`: it indexes `b[3]` first, which panics on a slice
shorter than four bytes. -/
def LittleEndianUint32 (b : List Byte) : Except Panic Nat :=
  match b with
  | b0 :: b1 :: b2 :: b3 :: _ => .ok (le32 b0 b1 b2 b3)
  | _ => .error .indexOutOfRange

/-- Function `binary.LittleEndian.PutUint32`: the four bytes `byte(v)`, `byte(v>>8)`,
`byte(v>>16)`, `byte(v>>24)`. -/
def LittleEndianPutUint32 (v : Nat) : List Byte :=
  [Fin.ofNat v, Fin.ofNat (v >>> 8), Fin.ofNat (v >>> 16), Fin.ofNat (v >>> 24)]

/-- Slice expression `image[offset:]`: panics when `offset` exceeds the length. -/
def sliceFrom (image : List Byte) (offset : Nat) : Except Panic (List Byte) :=
  if offset ≤ image.length then .ok (image.drop offset) else .error .sliceBoundsOutOfRange

/-- A `bytes.Buffer` used as `io.Reader`, as built on line 58: its unread bytes.  Reading
from it never fails other than by reaching the end. -/
structure Reader where
  buf : List Byte
  deriving DecidableEq, Repr

/-- Function `bytes.NewBuffer`. -/
def NewBuffer (b : List Byte) : Reader := ⟨b⟩

/-- Function `io.ReadFull` on a buffer, asking for `n` bytes: all `n` bytes when the
buffer holds them; `io.EOF` when it holds none; otherwise the buffer is drained and the
error is `io.ErrUnexpectedEOF`.  This is the closed form of the loop `readFullLoop`
below. -/
def ReadFull (r : Reader) (n : Nat) : Except Error (List Byte) × Reader :=
  if n ≤ r.buf.length then (.ok (r.buf.take n), ⟨r.buf.drop n⟩)
  else if r.buf.length = 0 then (.error .EOF, r)
  else (.error .ErrUnexpectedEOF, ⟨[]⟩)

/-- Method `Read` of `bytes.Buffer` with a destination of `k` bytes: on an empty buffer
it returns `io.EOF` (nil when `k` is 0), otherwise it copies and consumes up to `k`
bytes. -/
def Reader.Read (r : Reader) (k : Nat) : (List Byte × Option Error) × Reader :=
  if r.buf.length = 0 then
    if k = 0 then (([], none), r) else (([], some .EOF), r)
  else ((r.buf.take k, none), ⟨r.buf.drop k⟩)

/-- The loop `for n < min && err == nil` of `io.ReadAtLeast`, at most `fuel` rounds;
`got` are the bytes read so far.  The result is `none` when the rounds run out. -/
def readAtLeastLoop : Nat → Reader → List Byte → Nat →
    Option ((List Byte × Option Error) × Reader)
  | fuel, r, got, min =>
    if got.length < min then
      match fuel with
      | 0 => none
      | fuel + 1 =>
        match r.Read (min - got.length) with
        | ((bs, some e), r1) => some ((got ++ bs, some e), r1)
        | ((bs, none), r1) => readAtLeastLoop fuel r1 (got ++ bs) min
    else some ((got, none), r)

/-- Function `io.ReadFull` as `io.ReadAtLeast` with `min = len(buf)`: after the loop the
error is dropped when `min` bytes were read, and `io.EOF` after some bytes becomes
`io.ErrUnexpectedEOF`.  The loop cannot leave with fewer bytes and no error, so that case
has no result. -/
def readFullLoop (fuel : Nat) (r : Reader) (min : Nat) :
    Option (Except Error (List Byte) × Reader) :=
  match readAtLeastLoop fuel r [] min with
  | none => none
  | some ((got, err), r1) =>
    if min ≤ got.length then some (.ok got, r1)
    else
      match err with
      | some .EOF =>
        if 0 < got.length then some (.error .ErrUnexpectedEOF, r1) else some (.error .EOF, r1)
      | some e => some (.error e, r1)
      | none => none

/-- State of the `decoder` of `encoding/binary`: the buffer read by `io.ReadFull` and the
position of the next field. -/
structure decoder where
  buf : List Byte
  offset : Nat

/-- Method `decoder.uint8`. -/
def decoder.uint8 (d : decoder) : Byte × decoder :=
  (d.buf.getD d.offset 0, { d with offset := d.offset + 1 })

/-- Method `decoder.uint32` with little-endian order. -/
def decoder.uint32 (d : decoder) : Nat × decoder :=
  (le32 (d.buf.getD d.offset 0) (d.buf.getD (d.offset + 1) 0)
      (d.buf.getD (d.offset + 2) 0) (d.buf.getD (d.offset + 3) 0),
   { d with offset := d.offset + 4 })

/-- Decoding of an `[n]byte` array: `n` successive `uint8` reads. -/
def decoder.array : Nat → decoder → List Byte × decoder
  | 0, d => ([], d)
  | n + 1, d =>
    let (b, d1) := d.uint8
    let (bs, d2) := decoder.array n d1
    (b :: bs, d2)

/-- Method `decoder.value` on the struct: one read per field, in declared order. -/
def decoder.value (d : decoder) : EmbeddedFirmwareStructure × decoder :=
  let (signature, d) := d.uint32
  let (reserved1, d) := decoder.array 16 d
  let (psp, d) := d.uint32
  let (bios00, d) := d.uint32
  let (bios10, d) := d.uint32
  let (bios30, d) := d.uint32
  let (reserved2, d) := d.uint32
  let (bios60, d) := d.uint32
  let (reserved3, d) := decoder.array 30 d
  ({ Signature := signature
     Reserved1 := reserved1
     PSPDirectoryTablePointer := psp
     BIOSDirectoryTableFamily17hModels00h0FhPointer := bios00
     BIOSDirectoryTableFamily17hModels10h1FhPointer := bios10
     BIOSDirectoryTableFamily17hModels30h3FhPointer := bios30
     Reserved2 := reserved2
     BIOSDirectoryTableFamily17hModels60h3FhPointer := bios60
     Reserved3 := reserved3 }, d)

/-- Function `binary.Read(r, binary.LittleEndian, &result)`: a buffer of `binary.Size`
bytes is filled by `io.ReadFull`, whose error is returned as is; then the fields are
decoded from it. -/
def binaryRead (r : Reader) : Except Error EmbeddedFirmwareStructure × Reader :=
  match ReadFull r binarySize with
  | (.error e, r1) => (.error e, r1)
  | (.ok bs, r1) => (.ok (decoder.value ⟨bs, 0⟩).1, r1)

/-- Function `binary.Write(w, binary.LittleEndian, s)`: the fields in declared order, each
`uint32` through `PutUint32`, the arrays byte by byte. -/
def binaryWrite (s : EmbeddedFirmwareStructure) : List Byte :=
  LittleEndianPutUint32 s.Signature ++ s.Reserved1 ++
  LittleEndianPutUint32 s.PSPDirectoryTablePointer ++
  LittleEndianPutUint32 s.BIOSDirectoryTableFamily17hModels00h0FhPointer ++
  LittleEndianPutUint32 s.BIOSDirectoryTableFamily17hModels10h1FhPointer ++
  LittleEndianPutUint32 s.BIOSDirectoryTableFamily17hModels30h3FhPointer ++
  LittleEndianPutUint32 s.Reserved2 ++
  LittleEndianPutUint32 s.BIOSDirectoryTableFamily17hModels60h3FhPointer ++
  s.Reserved3

/-- What `ParseEmbeddedFirmwareStructure` returns: the pointer (nil is `none`), the byte
count and the error (nil is `none`). -/
structure ParseResult where
  result : Option EmbeddedFirmwareStructure
  length : Nat
  err : Option Error
  deriving DecidableEq, Repr

/-- Function `ParseEmbeddedFirmwareStructure` (lines 66-76), with the reader it leaves. -/
def ParseEmbeddedFirmwareStructure (r : Reader) : ParseResult × Reader :=
  match binaryRead r with
  | (.error err, r1) => (⟨none, 0, some err⟩, r1)
  | (.ok result, r1) =>
    if result.Signature ≠ EmbeddedFirmwareStructureSignature then
      (⟨none, 0, some (.incorrectSignature result.Signature)⟩, r1)
    else
      (⟨some result, binarySize % 2 ^ 64, none⟩, r1)

/-- What `FindEmbeddedFirmwareStructure` returns when it returns. -/
structure FindResult where
  result : Option EmbeddedFirmwareStructure
  range : Range
  err : Option Error
  deriving DecidableEq, Repr

/-- The candidate physical addresses, in the order of lines 39-46. -/
def addresses : List Nat :=
  [0xfffa0000, 0xfff20000, 0xffe20000, 0xffc20000, 0xff820000, 0xff020000]

/-- Translated offset of a candidate, as the `uint64` the interface returns. -/
def Firmware.offsetOf (fw : Firmware) (addr : Nat) : Nat :=
  fw.PhysAddrToOffset addr % 2 ^ 64

/-- The loop of lines 50-61 over the remaining candidates, followed by line 62. -/
def findLoop (fw : Firmware) (image : List Byte) : List Nat → Except Panic FindResult
  | [] => .ok ⟨none, ⟨0, 0⟩, some .notFound⟩
  | addr :: rest =>
    let offset := fw.offsetOf addr
    if (offset + 4) % 2 ^ 64 > image.length then
      findLoop fw image rest
    else
      match sliceFrom image offset with
      | .error p => .error p
      | .ok s =>
        match LittleEndianUint32 s with
        | .error p => .error p
        | .ok actualSignature =>
          if actualSignature = EmbeddedFirmwareStructureSignature then
            match sliceFrom image offset with
            | .error p => .error p
            | .ok s1 =>
              let res := (ParseEmbeddedFirmwareStructure (NewBuffer s1)).1
              .ok ⟨res.result, ⟨offset, res.length⟩, res.err⟩
          else
            findLoop fw image rest

/-- Function `FindEmbeddedFirmwareStructure` (lines 38-63). -/
def FindEmbeddedFirmwareStructure (fw : Firmware) : Except Panic FindResult :=
  findLoop fw fw.ImageBytes addresses

/-! ## Specification-side vocabulary -/

/-- Little-endian 32-bit value of the four bytes of `bs` at position `o`, as a sum. -/
def u32At (bs : List Byte) (o : Nat) : Nat :=
  (bs.getD o 0).val + 256 * (bs.getD (o + 1) 0).val +
    65536 * (bs.getD (o + 2) 0).val + 16777216 * (bs.getD (o + 3) 0).val

/-- The record read field by field at the absolute positions of the layout. -/
def layout (bs : List Byte) : EmbeddedFirmwareStructure :=
  { Signature := u32At bs 0
    Reserved1 := (bs.drop 4).take 16
    PSPDirectoryTablePointer := u32At bs 20
    BIOSDirectoryTableFamily17hModels00h0FhPointer := u32At bs 24
    BIOSDirectoryTableFamily17hModels10h1FhPointer := u32At bs 28
    BIOSDirectoryTableFamily17hModels30h3FhPointer := u32At bs 32
    Reserved2 := u32At bs 36
    BIOSDirectoryTableFamily17hModels60h3FhPointer := u32At bs 40
    Reserved3 := (bs.drop 44).take 30 }

/-- A candidate offset is within the image: `offset + 4 <= len(image)` over the naturals. -/
def InBounds (image : List Byte) (offset : Nat) : Prop := offset + 4 ≤ image.length

instance (image : List Byte) (offset : Nat) : Decidable (InBounds image offset) := by
  unfold InBounds; infer_instance

/-- The four bytes of the image at `offset`, read little-endian, give the signature. -/
def ReadsSignature (image : List Byte) (offset : Nat) : Prop :=
  u32At image offset = EmbeddedFirmwareStructureSignature

instance (image : List Byte) (offset : Nat) : Decidable (ReadsSignature image offset) := by
  unfold ReadsSignature; infer_instance

/-- The four bytes of the image at `offset` are `AA 55 AA 55`. -/
def SignatureBytesAt (image : List Byte) (offset : Nat) : Prop :=
  (image.drop offset).take 4 = [0xAA, 0x55, 0xAA, 0x55]

instance (image : List Byte) (offset : Nat) : Decidable (SignatureBytesAt image offset) := by
  unfold SignatureBytesAt; infer_instance

/-- A candidate address matches: its translated offset is in bounds and the four bytes
there read as the signature. -/
def Matches (fw : Firmware) (addr : Nat) : Prop :=
  InBounds fw.ImageBytes (fw.offsetOf addr) ∧ ReadsSignature fw.ImageBytes (fw.offsetOf addr)

instance (fw : Firmware) (addr : Nat) : Decidable (Matches fw addr) := by
  unfold Matches; infer_instance

/-- What the scan returns when it commits to the candidate at `offset`: the result of the
decoder on the image from `offset` on, with the range starting at `offset`. -/
def committed (image : List Byte) (offset : Nat) : FindResult :=
  let res := (ParseEmbeddedFirmwareStructure (NewBuffer (image.drop offset))).1
  ⟨res.result, ⟨offset, res.length⟩, res.err⟩

/-- A 74-byte record with the signature and zeroes elsewhere. -/
def sampleRecord : List Byte := [0xAA, 0x55, 0xAA, 0x55] ++ List.replicate 70 0

/-- An image of four zero bytes whose translation sends every address to `2 ^ 64 - 1`. -/
def wrappedFirmware : Firmware := ⟨[0, 0, 0, 0], fun _ => 0xFFFFFFFFFFFFFFFF⟩

/-- An image of `0x10000` zero bytes that ends at 4 GiB: the translation is
`addr - (2 ^ 32 - 0x10000)` in `uint64` arithmetic. -/
def smallFirmware : Firmware := ⟨List.replicate 0x10000 0, fun a => a + 2 ^ 64 - 0xFFFF0000⟩

/-- A full record at offset 0 reached through the second candidate `0xfff20000`; the
other candidates are translated out of the image. -/
def secondCandidateFirmware : Firmware :=
  ⟨sampleRecord, fun a => if a = 0xfff20000 then 0 else 100⟩

/-- The sample record cut to the 72 bytes the prose gives as the record size. -/
def shortRecord : List Byte := [0xAA, 0x55, 0xAA, 0x55] ++ List.replicate 68 0

/-- A 74-byte record with the signature followed by seventy bytes `FF`. -/
def onesRecord : List Byte := [0xAA, 0x55, 0xAA, 0x55] ++ List.replicate 70 0xFF

/-- A 74-byte record whose byte at position `i >= 4` is `i`. -/
def countingRecord : List Byte :=
  [0xAA, 0x55, 0xAA, 0x55] ++ (List.range 70).map (fun i => Fin.ofNat (i + 4))

/-- The first candidate wraps (`2 ^ 64 - 1`); every other candidate is translated to
offset 0, where the image holds the four signature bytes and nothing more. -/
def wrapThenMatchFirmware : Firmware :=
  ⟨[0xAA, 0x55, 0xAA, 0x55], fun a => if a = 0xfffa0000 then 0xFFFFFFFFFFFFFFFF else 0⟩

/-- A complete record at offset 0 followed by four signature bytes at offset 74; the
first candidate is translated to 74, the others to 0. -/
def truncatedFirstFirmware : Firmware :=
  ⟨sampleRecord ++ [0xAA, 0x55, 0xAA, 0x55], fun a => if a = 0xfffa0000 then 74 else 0⟩

/-- A complete record at offset 0 followed by four signature bytes at offset 74; the
first candidate is translated out of the image, the second to 74, the others to 0. -/
def truncatedSecondFirmware : Firmware :=
  ⟨sampleRecord ++ [0xAA, 0x55, 0xAA, 0x55],
    fun a => if a = 0xfffa0000 then 1000 else if a = 0xfff20000 then 74 else 0⟩

/-- A structure with the signature and zeroes elsewhere. -/
def zeroStructure : EmbeddedFirmwareStructure :=
  { Signature := 0x55aa55aa
    Reserved1 := List.replicate 16 0
    PSPDirectoryTablePointer := 0
    BIOSDirectoryTableFamily17hModels00h0FhPointer := 0
    BIOSDirectoryTableFamily17hModels10h1FhPointer := 0
    BIOSDirectoryTableFamily17hModels30h3FhPointer := 0
    Reserved2 := 0
    BIOSDirectoryTableFamily17hModels60h3FhPointer := 0
    Reserved3 := List.replicate 30 0 }

/-- A structure with the signature and distinct values in every other field. -/
def variedStructure : EmbeddedFirmwareStructure :=
  { Signature := 0x55aa55aa
    Reserved1 := (List.range 16).map (fun i => Fin.ofNat (i + 1))
    PSPDirectoryTablePointer := 0x00077000
    BIOSDirectoryTableFamily17hModels00h0FhPointer := 0xff0a0000
    BIOSDirectoryTableFamily17hModels10h1FhPointer := 0xffffffff
    BIOSDirectoryTableFamily17hModels30h3FhPointer := 0x12345678
    Reserved2 := 0xdeadbeef
    BIOSDirectoryTableFamily17hModels60h3FhPointer := 1
    Reserved3 := (List.range 30).map (fun i => Fin.ofNat (200 + i)) }

/-- The 72-byte record at offset 0, reached through the second candidate `0xfff20000`;
the other candidates are translated out of the image. -/
def shortSecondFirmware : Firmware :=
  ⟨shortRecord, fun a => if a = 0xfff20000 then 0 else 100⟩

/-- Four zero bytes, then a complete record filled with `FF`: the first candidate is
translated to 0, the second to 4, the others out of the image. -/
def offsetSecondFirmware : Firmware :=
  ⟨[0, 0, 0, 0] ++ onesRecord,
    fun a => if a = 0xfffa0000 then 0 else if a = 0xfff20000 then 4 else 1000⟩

/-! ## Byte-level facts -/

theorem le32_eq_sum (b0 b1 b2 b3 : Byte) :
    le32 b0 b1 b2 b3 = b0.val + 256 * b1.val + 65536 * b2.val + 16777216 * b3.val := by
  have h0 := b0.isLt
  have h1 := b1.isLt
  have h2 := b2.isLt
  have e1 : b0.val ||| b1.val <<< 8 = b0.val + 256 * b1.val := by
    rw [Nat.shiftLeft_eq, Nat.lor_comm, Nat.mul_comm]
    have := Nat.mul_add_lt_is_or (i := 8) (b := b0.val) (by omega) b1.val
    rw [← this]; omega
  have e2 : (b0.val + 256 * b1.val) ||| b2.val <<< 16
      = b0.val + 256 * b1.val + 65536 * b2.val := by
    rw [Nat.shiftLeft_eq, Nat.lor_comm, Nat.mul_comm]
    have := Nat.mul_add_lt_is_or (i := 16) (b := b0.val + 256 * b1.val) (by omega) b2.val
    rw [← this]; omega
  have e3 : (b0.val + 256 * b1.val + 65536 * b2.val) ||| b3.val <<< 24
      = b0.val + 256 * b1.val + 65536 * b2.val + 16777216 * b3.val := by
    rw [Nat.shiftLeft_eq, Nat.lor_comm, Nat.mul_comm]
    have := Nat.mul_add_lt_is_or (i := 24)
      (b := b0.val + 256 * b1.val + 65536 * b2.val) (by omega) b3.val
    rw [← this]; omega
  unfold le32
  rw [e1, e2, e3]

theorem le32_lt (b0 b1 b2 b3 : Byte) : le32 b0 b1 b2 b3 < 2 ^ 32 := by
  rw [le32_eq_sum]
  have h0 := b0.isLt
  have h1 := b1.isLt
  have h2 := b2.isLt
  have h3 := b3.isLt
  omega

theorem le32_eq_signature_iff (b0 b1 b2 b3 : Byte) :
    le32 b0 b1 b2 b3 = EmbeddedFirmwareStructureSignature ↔
      b0 = 0xAA ∧ b1 = 0x55 ∧ b2 = 0xAA ∧ b3 = 0x55 := by
  rw [le32_eq_sum]
  unfold EmbeddedFirmwareStructureSignature
  have h0 := b0.isLt
  have h1 := b1.isLt
  have h2 := b2.isLt
  have h3 := b3.isLt
  constructor
  · intro h
    refine ⟨Fin.ext ?_, Fin.ext ?_, Fin.ext ?_, Fin.ext ?_⟩
    · show b0.val = 170
      omega
    · show b1.val = 85
      omega
    · show b2.val = 170
      omega
    · show b3.val = 85
      omega
  · rintro ⟨rfl, rfl, rfl, rfl⟩
    rfl

/-! ## The decoder -/

theorem getD_take_of_lt (bs : List Byte) (n i : Nat) (h : i < n) :
    (bs.take n).getD i 0 = bs.getD i 0 := by
  simp [List.getD_eq_getElem?_getD, List.getElem?_take, h]

theorem u32At_take (bs : List Byte) (n o : Nat) (h : o + 4 ≤ n) :
    u32At (bs.take n) o = u32At bs o := by
  unfold u32At
  rw [getD_take_of_lt bs n o (by omega), getD_take_of_lt bs n (o + 1) (by omega),
    getD_take_of_lt bs n (o + 2) (by omega), getD_take_of_lt bs n (o + 3) (by omega)]

theorem take_drop_take (bs : List Byte) (n o k : Nat) (h : o + k ≤ n) :
    ((bs.take n).drop o).take k = (bs.drop o).take k := by
  rw [List.drop_take, List.take_take]
  congr 1
  omega

theorem decoder_uint32_eq (d : decoder) :
    d.uint32 = (u32At d.buf d.offset, ⟨d.buf, d.offset + 4⟩) := by
  simp [decoder.uint32, u32At, le32_eq_sum]

theorem decoder_array_eq (n : Nat) (d : decoder) (h : d.offset + n ≤ d.buf.length) :
    decoder.array n d = ((d.buf.drop d.offset).take n, ⟨d.buf, d.offset + n⟩) := by
  induction n generalizing d with
  | zero => simp [decoder.array]
  | succ n ih =>
    have hlt : d.offset < d.buf.length := by omega
    have hstep := ih ⟨d.buf, d.offset + 1⟩ (by simp; omega)
    simp only [decoder.array, decoder.uint8, hstep]
    rw [List.drop_eq_getElem_cons hlt, List.take_succ_cons, List.getD_eq_getElem _ _ hlt]
    simp [Nat.add_assoc, Nat.add_comm 1 n]

theorem decoder_value_eq (bs : List Byte) (h : 74 ≤ bs.length) :
    decoder.value ⟨bs, 0⟩ = (layout bs, ⟨bs, 74⟩) := by
  simp only [decoder.value, decoder_uint32_eq]
  rw [decoder_array_eq 16 ⟨bs, 0 + 4⟩ (by simp; omega)]
  simp only []
  rw [decoder_array_eq 30 ⟨bs, 0 + 4 + 16 + 4 + 4 + 4 + 4 + 4 + 4⟩ (by simp; omega)]
  simp [layout]

theorem layout_take (bs : List Byte) : layout (bs.take 74) = layout bs := by
  simp only [layout]
  rw [u32At_take bs 74 0 (by omega), u32At_take bs 74 20 (by omega),
    u32At_take bs 74 24 (by omega), u32At_take bs 74 28 (by omega),
    u32At_take bs 74 32 (by omega), u32At_take bs 74 36 (by omega),
    u32At_take bs 74 40 (by omega), take_drop_take bs 74 4 16 (by omega),
    take_drop_take bs 74 44 30 (by omega)]

theorem ReadFull_of_le (r : Reader) (n : Nat) (h : n ≤ r.buf.length) :
    ReadFull r n = (.ok (r.buf.take n), ⟨r.buf.drop n⟩) := by
  simp [ReadFull, h]

theorem ReadFull_of_lt (r : Reader) (n : Nat) (h : r.buf.length < n) :
    ReadFull r n =
      if r.buf.length = 0 then (.error .EOF, r) else (.error .ErrUnexpectedEOF, ⟨[]⟩) := by
  simp [ReadFull, Nat.not_le.mpr h]

/-- Two rounds of the loop are enough on a buffer, and the loop then gives the closed
form `ReadFull`. -/
theorem readFullLoop_eq (fuel : Nat) (r : Reader) (n : Nat) :
    readFullLoop (fuel + 2) r n = some (ReadFull r n) := by
  unfold readFullLoop ReadFull
  by_cases hn : n ≤ r.buf.length
  · rw [if_pos hn]
    by_cases h0 : n = 0
    · subst h0
      simp [readAtLeastLoop]
    · have hne : r.buf.length ≠ 0 := by omega
      simp [readAtLeastLoop, Reader.Read, hne, Nat.pos_of_ne_zero h0, hn, Nat.min_eq_left hn]
  · rw [if_neg hn]
    have hpos : 0 < n := by omega
    by_cases h0 : r.buf.length = 0
    · rw [if_pos h0]
      simp [readAtLeastLoop, Reader.Read, h0, hpos, Nat.ne_of_gt hpos]
    · rw [if_neg h0]
      have hlt : r.buf.length < n := by omega
      have hmin : min n r.buf.length = r.buf.length := Nat.min_eq_right (by omega)
      have hdrop : r.buf.drop n = [] := List.drop_eq_nil_of_le (by omega)
      have hsub : n - r.buf.length ≠ 0 := by omega
      simp [readAtLeastLoop, Reader.Read, h0, hpos, hmin, hlt, hdrop, hsub,
        Nat.pos_of_ne_zero h0, Nat.not_le.mpr hlt]

theorem binaryRead_of_le (r : Reader) (h : 74 ≤ r.buf.length) :
    binaryRead r = (.ok (layout r.buf), ⟨r.buf.drop 74⟩) := by
  have hs : binarySize = 74 := rfl
  unfold binaryRead
  rw [hs, ReadFull_of_le r 74 h]
  simp only []
  rw [decoder_value_eq (r.buf.take 74) (by simp; omega), layout_take]

theorem binaryRead_of_lt (r : Reader) (h : r.buf.length < 74) :
    binaryRead r =
      if r.buf.length = 0 then (.error .EOF, r) else (.error .ErrUnexpectedEOF, ⟨[]⟩) := by
  have hs : binarySize = 74 := rfl
  unfold binaryRead
  rw [hs, ReadFull_of_lt r 74 h]
  by_cases h0 : r.buf.length = 0
  · rw [if_pos h0, if_pos h0]
  · rw [if_neg h0, if_neg h0]

theorem Parse_of_lt (r : Reader) (h : r.buf.length < 74) :
    ParseEmbeddedFirmwareStructure r =
      if r.buf.length = 0 then (⟨none, 0, some .EOF⟩, r)
      else (⟨none, 0, some .ErrUnexpectedEOF⟩, ⟨[]⟩) := by
  unfold ParseEmbeddedFirmwareStructure
  rw [binaryRead_of_lt r h]
  by_cases h0 : r.buf.length = 0
  · rw [if_pos h0, if_pos h0]
  · rw [if_neg h0, if_neg h0]

theorem Parse_of_le (r : Reader) (h : 74 ≤ r.buf.length) :
    ParseEmbeddedFirmwareStructure r =
      if u32At r.buf 0 ≠ EmbeddedFirmwareStructureSignature then
        (⟨none, 0, some (.incorrectSignature (u32At r.buf 0))⟩, ⟨r.buf.drop 74⟩)
      else (⟨some (layout r.buf), 74, none⟩, ⟨r.buf.drop 74⟩) := by
  unfold ParseEmbeddedFirmwareStructure
  rw [binaryRead_of_le r h]
  rfl

/-! ## One step of the scan -/

theorem Parse_err_ne_notFound (r : Reader) :
    (ParseEmbeddedFirmwareStructure r).1.err ≠ some .notFound := by
  by_cases h : r.buf.length < 74
  · rw [Parse_of_lt r h]
    split <;> simp
  · rw [Parse_of_le r (by omega)]
    split <;> simp

theorem getD_drop (l : List Byte) (o i : Nat) : (l.drop o).getD i 0 = l.getD (o + i) 0 := by
  simp [List.getD_eq_getElem?_getD, List.getElem?_drop]

theorem u32At_drop (l : List Byte) (o : Nat) : u32At (l.drop o) 0 = u32At l o := by
  unfold u32At
  rw [getD_drop, getD_drop, getD_drop, getD_drop]
  simp [Nat.add_assoc]

theorem Uint32_eq (l : List Byte) :
    LittleEndianUint32 l =
      if 4 ≤ l.length then .ok (u32At l 0) else .error .indexOutOfRange := by
  rcases l with _ | ⟨a, _ | ⟨b, _ | ⟨c, _ | ⟨d, t⟩⟩⟩⟩ <;>
    simp [LittleEndianUint32, u32At, le32_eq_sum]

theorem take4_eq_iff (l : List Byte) (h : 4 ≤ l.length) :
    l.take 4 = [0xAA, 0x55, 0xAA, 0x55] ↔ u32At l 0 = EmbeddedFirmwareStructureSignature := by
  rcases l with _ | ⟨a, _ | ⟨b, _ | ⟨c, _ | ⟨d, t⟩⟩⟩⟩
  · simp at h
  · simp at h
  · simp at h
  · simp at h
  · have e : u32At (a :: b :: c :: d :: t) 0 = le32 a b c d := by
      simp [u32At, le32_eq_sum]
    rw [e, le32_eq_signature_iff]
    simp

theorem signatureBytesAt_iff (image : List Byte) (o : Nat) (h : InBounds image o) :
    SignatureBytesAt image o ↔ ReadsSignature image o := by
  unfold SignatureBytesAt ReadsSignature
  rw [take4_eq_iff (image.drop o) (by unfold InBounds at h; simp; omega), u32At_drop]

theorem findLoop_cons (fw : Firmware) (image : List Byte) (addr : Nat) (rest : List Nat) :
    findLoop fw image (addr :: rest) =
      if (fw.offsetOf addr + 4) % 2 ^ 64 > image.length then findLoop fw image rest
      else if image.length < fw.offsetOf addr then .error .sliceBoundsOutOfRange
      else if image.length < fw.offsetOf addr + 4 then .error .indexOutOfRange
      else if ReadsSignature image (fw.offsetOf addr) then
        .ok (committed image (fw.offsetOf addr))
      else findLoop fw image rest := by
  rw [findLoop]
  simp only []
  by_cases h1 : (fw.offsetOf addr + 4) % 2 ^ 64 > image.length
  · rw [if_pos h1, if_pos h1]
  · rw [if_neg h1, if_neg h1]
    by_cases h2 : image.length < fw.offsetOf addr
    · rw [if_pos h2]
      simp [sliceFrom, Nat.not_le.mpr h2]
    · rw [if_neg h2]
      have hs : sliceFrom image (fw.offsetOf addr) = .ok (image.drop (fw.offsetOf addr)) := by
        simp [sliceFrom, Nat.not_lt.mp h2]
      rw [hs]
      simp only []
      rw [Uint32_eq, u32At_drop]
      by_cases h3 : image.length < fw.offsetOf addr + 4
      · rw [if_pos h3, if_neg (by simp; omega)]
      · rw [if_neg h3, if_pos (by simp; omega)]
        simp only []
        by_cases h4 : ReadsSignature image (fw.offsetOf addr)
        · have h5 : u32At image (fw.offsetOf addr) = EmbeddedFirmwareStructureSignature := h4
          rw [if_pos h5, if_pos h4]
          rfl
        · have h5 : ¬ u32At image (fw.offsetOf addr) = EmbeddedFirmwareStructureSignature := h4
          rw [if_neg h5, if_neg h4]

theorem findLoop_cons_of_noWrap (fw : Firmware) (image : List Byte) (addr : Nat)
    (rest : List Nat) (h : fw.offsetOf addr + 4 < 2 ^ 64) :
    findLoop fw image (addr :: rest) =
      if InBounds image (fw.offsetOf addr) ∧ ReadsSignature image (fw.offsetOf addr) then
        .ok (committed image (fw.offsetOf addr))
      else findLoop fw image rest := by
  rw [findLoop_cons, Nat.mod_eq_of_lt h]
  unfold InBounds
  by_cases h1 : fw.offsetOf addr + 4 > image.length
  · rw [if_pos h1, if_neg (by omega)]
  · rw [if_neg h1, if_neg (by omega), if_neg (by omega)]
    by_cases h4 : ReadsSignature image (fw.offsetOf addr)
    · rw [if_pos h4, if_pos ⟨by omega, h4⟩]
    · rw [if_neg h4, if_neg (fun hc => h4 hc.2)]

theorem committed_err_ne_notFound (image : List Byte) (o : Nat) :
    (committed image o).err ≠ some .notFound :=
  Parse_err_ne_notFound _

/-! ## The scan over a list of candidates -/

theorem Parse_of_err (r : Reader) (e : Error)
    (h : (ParseEmbeddedFirmwareStructure r).1.err = some e) :
    (ParseEmbeddedFirmwareStructure r).1 = ⟨none, 0, some e⟩ := by
  by_cases hl : r.buf.length < 74
  · rw [Parse_of_lt r hl] at h ⊢
    split at h <;> simp_all
  · rw [Parse_of_le r (by omega)] at h ⊢
    split at h <;> simp_all

theorem findLoop_nil (fw : Firmware) (image : List Byte) :
    findLoop fw image [] = .ok ⟨none, ⟨0, 0⟩, some .notFound⟩ := rfl

/-- Whatever the scan returns other than not-found is the commitment to the first
candidate of the list that is in bounds and reads as the signature. -/
theorem findLoop_ok_first (fw : Firmware) (image : List Byte) :
    ∀ (l : List Nat) (res : FindResult), findLoop fw image l = .ok res →
      res.err ≠ some .notFound →
      ∃ pre addr post, l = pre ++ addr :: post ∧ res = committed image (fw.offsetOf addr) ∧
        InBounds image (fw.offsetOf addr) ∧ ReadsSignature image (fw.offsetOf addr) ∧
        ∀ a ∈ pre, ¬ (InBounds image (fw.offsetOf a) ∧ ReadsSignature image (fw.offsetOf a)) := by
  intro l
  induction l with
  | nil =>
    intro res h hne
    rw [findLoop_nil] at h
    cases h
    exact absurd rfl hne
  | cons addr rest ih =>
    intro res h hne
    rw [findLoop_cons] at h
    have hmod : (fw.offsetOf addr + 4) % 2 ^ 64 ≤ fw.offsetOf addr + 4 := Nat.mod_le _ _
    split at h
    · rename_i h1
      obtain ⟨pre, a, post, hl, hres, hb, hs, hpre⟩ := ih res h hne
      refine ⟨addr :: pre, a, post, by rw [hl]; rfl, hres, hb, hs, ?_⟩
      intro x hx
      rcases List.mem_cons.mp hx with rfl | hx
      · intro hc
        have := hc.1
        unfold InBounds at this
        omega
      · exact hpre x hx
    · split at h
      · cases h
      · split at h
        · cases h
        · rename_i h1 h2 h3
          split at h
          · rename_i h4
            refine ⟨[], addr, rest, rfl, (Except.ok.inj h).symm, ?_, h4, ?_⟩
            · unfold InBounds
              omega
            · intro x hx
              cases hx
          · rename_i h4
            obtain ⟨pre, a, post, hl, hres, hb, hs, hpre⟩ := ih res h hne
            refine ⟨addr :: pre, a, post, by rw [hl]; rfl, hres, hb, hs, ?_⟩
            intro x hx
            rcases List.mem_cons.mp hx with rfl | hx
            · exact fun hc => h4 hc.2
            · exact hpre x hx

/-- Without wrap-around, a scan over candidates none of which matches ends in not-found. -/
theorem findLoop_notFound_of_none (fw : Firmware) (image : List Byte) :
    ∀ l : List Nat, (∀ a ∈ l, fw.offsetOf a + 4 < 2 ^ 64) →
      (∀ a ∈ l, ¬ (InBounds image (fw.offsetOf a) ∧ ReadsSignature image (fw.offsetOf a))) →
      findLoop fw image l = .ok ⟨none, ⟨0, 0⟩, some .notFound⟩ := by
  intro l
  induction l with
  | nil => intro _ _; rfl
  | cons addr rest ih =>
    intro hw hn
    rw [findLoop_cons_of_noWrap fw image addr rest (hw addr (List.mem_cons_self _ _)),
      if_neg (hn addr (List.mem_cons_self _ _))]
    exact ih (fun a ha => hw a (List.mem_cons_of_mem _ ha))
      (fun a ha => hn a (List.mem_cons_of_mem _ ha))

/-- First match commits: candidates before the first match are passed over, provided
their bounds test does not wrap, and the scan returns what the decoder gives there. -/
theorem findLoop_commit (fw : Firmware) (image : List Byte) (addr : Nat) (post : List Nat) :
    ∀ pre : List Nat,
      (∀ a ∈ pre, ¬ (InBounds image (fw.offsetOf a) ∧ ReadsSignature image (fw.offsetOf a)) ∧
        fw.offsetOf a + 4 < 2 ^ 64) →
      InBounds image (fw.offsetOf addr) → ReadsSignature image (fw.offsetOf addr) →
      findLoop fw image (pre ++ addr :: post) = .ok (committed image (fw.offsetOf addr)) := by
  intro pre
  induction pre with
  | nil =>
    intro _ hb hs
    have hmod : (fw.offsetOf addr + 4) % 2 ^ 64 ≤ fw.offsetOf addr + 4 := Nat.mod_le _ _
    unfold InBounds at hb
    rw [List.nil_append, findLoop_cons, if_neg (by omega), if_neg (by omega),
      if_neg (by omega), if_pos hs]
  | cons a pre ih =>
    intro hpre hb hs
    have ha := hpre a (List.mem_cons_self _ _)
    rw [List.cons_append, findLoop_cons_of_noWrap fw image a _ ha.2, if_neg ha.1]
    exact ih (fun x hx => hpre x (List.mem_cons_of_mem _ hx)) hb hs

/-! ## Encoding and decoding -/

theorem length_putUint32 (v : Nat) : (LittleEndianPutUint32 v).length = 4 := rfl

theorem u32At_putUint32 (v : Nat) (hv : v < 2 ^ 32) (suf : List Byte) :
    u32At (LittleEndianPutUint32 v ++ suf) 0 = v := by
  simp only [u32At, LittleEndianPutUint32, List.cons_append, List.getD_cons_zero,
    List.getD_cons_succ, Nat.zero_add, Fin.ofNat, Nat.shiftRight_eq_div_pow]
  omega

theorem u32At_append_put (pre suf : List Byte) (v o : Nat) (hv : v < 2 ^ 32)
    (ho : pre.length = o) :
    u32At (pre ++ (LittleEndianPutUint32 v ++ suf)) o = v := by
  subst ho
  rw [← u32At_drop, List.drop_left, u32At_putUint32 v hv]

theorem take_drop_append (pre mid suf : List Byte) (o n : Nat) (ho : pre.length = o)
    (hn : mid.length = n) : ((pre ++ (mid ++ suf)).drop o).take n = mid := by
  subst ho
  subst hn
  rw [List.drop_left, List.take_left]

theorem length_binaryWrite (s : EmbeddedFirmwareStructure) (hw : s.WellTyped) :
    (binaryWrite s).length = 74 := by
  obtain ⟨_, h1, _, _, _, _, _, _, h3⟩ := hw
  simp [binaryWrite, length_putUint32, h1, h3]

theorem layout_binaryWrite (s : EmbeddedFirmwareStructure) (hw : s.WellTyped) :
    layout (binaryWrite s) = s := by
  obtain ⟨h0, h1, h2, h3, h4, h5, h6, h7, h8⟩ := hw
  cases s with
  | mk sig r1 psp b00 b10 b30 r2 b60 r3 =>
  simp only at h0 h1 h2 h3 h4 h5 h6 h7 h8
  simp only [layout, binaryWrite, EmbeddedFirmwareStructure.mk.injEq]
  refine ⟨?_, ?_, ?_, ?_, ?_, ?_, ?_, ?_, ?_⟩
  · simp only [List.append_assoc]
    exact u32At_append_put [] _ sig 0 h0 rfl
  · simp only [List.append_assoc]
    exact take_drop_append (LittleEndianPutUint32 sig) r1 _ 4 16 rfl h1
  · have e : LittleEndianPutUint32 sig ++ r1 ++ LittleEndianPutUint32 psp ++
        LittleEndianPutUint32 b00 ++ LittleEndianPutUint32 b10 ++ LittleEndianPutUint32 b30 ++
        LittleEndianPutUint32 r2 ++ LittleEndianPutUint32 b60 ++ r3 =
        (LittleEndianPutUint32 sig ++ r1) ++ (LittleEndianPutUint32 psp ++
        (LittleEndianPutUint32 b00 ++ LittleEndianPutUint32 b10 ++ LittleEndianPutUint32 b30 ++
        LittleEndianPutUint32 r2 ++ LittleEndianPutUint32 b60 ++ r3)) := by
      simp only [List.append_assoc]
    rw [e]
    exact u32At_append_put _ _ psp 20 h2 (by simp [length_putUint32, h1])
  · have e : LittleEndianPutUint32 sig ++ r1 ++ LittleEndianPutUint32 psp ++
        LittleEndianPutUint32 b00 ++ LittleEndianPutUint32 b10 ++ LittleEndianPutUint32 b30 ++
        LittleEndianPutUint32 r2 ++ LittleEndianPutUint32 b60 ++ r3 =
        (LittleEndianPutUint32 sig ++ r1 ++ LittleEndianPutUint32 psp) ++
        (LittleEndianPutUint32 b00 ++ (LittleEndianPutUint32 b10 ++ LittleEndianPutUint32 b30 ++
        LittleEndianPutUint32 r2 ++ LittleEndianPutUint32 b60 ++ r3)) := by
      simp only [List.append_assoc]
    rw [e]
    exact u32At_append_put _ _ b00 24 h3 (by simp [length_putUint32, h1])
  · have e : LittleEndianPutUint32 sig ++ r1 ++ LittleEndianPutUint32 psp ++
        LittleEndianPutUint32 b00 ++ LittleEndianPutUint32 b10 ++ LittleEndianPutUint32 b30 ++
        LittleEndianPutUint32 r2 ++ LittleEndianPutUint32 b60 ++ r3 =
        (LittleEndianPutUint32 sig ++ r1 ++ LittleEndianPutUint32 psp ++
        LittleEndianPutUint32 b00) ++ (LittleEndianPutUint32 b10 ++ (LittleEndianPutUint32 b30 ++
        LittleEndianPutUint32 r2 ++ LittleEndianPutUint32 b60 ++ r3)) := by
      simp only [List.append_assoc]
    rw [e]
    exact u32At_append_put _ _ b10 28 h4 (by simp [length_putUint32, h1])
  · have e : LittleEndianPutUint32 sig ++ r1 ++ LittleEndianPutUint32 psp ++
        LittleEndianPutUint32 b00 ++ LittleEndianPutUint32 b10 ++ LittleEndianPutUint32 b30 ++
        LittleEndianPutUint32 r2 ++ LittleEndianPutUint32 b60 ++ r3 =
        (LittleEndianPutUint32 sig ++ r1 ++ LittleEndianPutUint32 psp ++
        LittleEndianPutUint32 b00 ++ LittleEndianPutUint32 b10) ++ (LittleEndianPutUint32 b30 ++
        (LittleEndianPutUint32 r2 ++ LittleEndianPutUint32 b60 ++ r3)) := by
      simp only [List.append_assoc]
    rw [e]
    exact u32At_append_put _ _ b30 32 h5 (by simp [length_putUint32, h1])
  · have e : LittleEndianPutUint32 sig ++ r1 ++ LittleEndianPutUint32 psp ++
        LittleEndianPutUint32 b00 ++ LittleEndianPutUint32 b10 ++ LittleEndianPutUint32 b30 ++
        LittleEndianPutUint32 r2 ++ LittleEndianPutUint32 b60 ++ r3 =
        (LittleEndianPutUint32 sig ++ r1 ++ LittleEndianPutUint32 psp ++
        LittleEndianPutUint32 b00 ++ LittleEndianPutUint32 b10 ++ LittleEndianPutUint32 b30) ++
        (LittleEndianPutUint32 r2 ++ (LittleEndianPutUint32 b60 ++ r3)) := by
      simp only [List.append_assoc]
    rw [e]
    exact u32At_append_put _ _ r2 36 h6 (by simp [length_putUint32, h1])
  · have e : LittleEndianPutUint32 sig ++ r1 ++ LittleEndianPutUint32 psp ++
        LittleEndianPutUint32 b00 ++ LittleEndianPutUint32 b10 ++ LittleEndianPutUint32 b30 ++
        LittleEndianPutUint32 r2 ++ LittleEndianPutUint32 b60 ++ r3 =
        (LittleEndianPutUint32 sig ++ r1 ++ LittleEndianPutUint32 psp ++
        LittleEndianPutUint32 b00 ++ LittleEndianPutUint32 b10 ++ LittleEndianPutUint32 b30 ++
        LittleEndianPutUint32 r2) ++ (LittleEndianPutUint32 b60 ++ r3) := by
      simp only [List.append_assoc]
    rw [e]
    exact u32At_append_put _ _ b60 40 h7 (by simp [length_putUint32, h1])
  · have e : LittleEndianPutUint32 sig ++ r1 ++ LittleEndianPutUint32 psp ++
        LittleEndianPutUint32 b00 ++ LittleEndianPutUint32 b10 ++ LittleEndianPutUint32 b30 ++
        LittleEndianPutUint32 r2 ++ LittleEndianPutUint32 b60 ++ r3 =
        (LittleEndianPutUint32 sig ++ r1 ++ LittleEndianPutUint32 psp ++
        LittleEndianPutUint32 b00 ++ LittleEndianPutUint32 b10 ++ LittleEndianPutUint32 b30 ++
        LittleEndianPutUint32 r2 ++ LittleEndianPutUint32 b60) ++ (r3 ++ []) := by
      simp only [List.append_assoc, List.append_nil]
    rw [e]
    exact take_drop_append _ r3 [] 44 30 (by simp [length_putUint32, h1]) h8

/-! ## What the scan returns -/

theorem committed_eq (image : List Byte) (o : Nat) (hb : InBounds image o)
    (hs : ReadsSignature image o) :
    committed image o =
      if o + 74 ≤ image.length then ⟨some (layout (image.drop o)), ⟨o, 74⟩, none⟩
      else ⟨none, ⟨o, 0⟩, some .ErrUnexpectedEOF⟩ := by
  unfold InBounds at hb
  unfold ReadsSignature at hs
  have hlen : (NewBuffer (image.drop o)).buf.length = image.length - o := by
    simp [NewBuffer]
  have hsig : u32At (NewBuffer (image.drop o)).buf 0 = EmbeddedFirmwareStructureSignature := by
    show u32At (image.drop o) 0 = _
    rw [u32At_drop]
    exact hs
  unfold committed
  by_cases h : o + 74 ≤ image.length
  · rw [if_pos h]
    simp only []
    rw [Parse_of_le _ (by rw [hlen]; omega), if_neg (by simp [hsig])]
    rfl
  · rw [if_neg h]
    simp only []
    rw [Parse_of_lt _ (by rw [hlen]; omega), if_neg (by rw [hlen]; omega)]

theorem findLoop_notFound_shape (fw : Firmware) (image : List Byte) :
    ∀ (l : List Nat) (res : FindResult), findLoop fw image l = .ok res →
      res.err = some .notFound → res = ⟨none, ⟨0, 0⟩, some .notFound⟩ := by
  intro l
  induction l with
  | nil =>
    intro res h _
    rw [findLoop_nil] at h
    exact (Except.ok.inj h).symm
  | cons addr rest ih =>
    intro res h he
    rw [findLoop_cons] at h
    split at h
    · exact ih res h he
    · split at h
      · cases h
      · split at h
        · cases h
        · split at h
          · have := Except.ok.inj h
            rw [← this] at he
            exact absurd he (committed_err_ne_notFound _ _)
          · exact ih res h he

theorem findLoop_returns_of_noWrap (fw : Firmware) (image : List Byte) :
    ∀ l : List Nat, (∀ a ∈ l, fw.offsetOf a + 4 < 2 ^ 64) →
      ∃ res, findLoop fw image l = .ok res := by
  intro l
  induction l with
  | nil => intro _; exact ⟨_, rfl⟩
  | cons addr rest ih =>
    intro hw
    rw [findLoop_cons_of_noWrap fw image addr rest (hw addr (List.mem_cons_self _ _))]
    split
    · exact ⟨_, rfl⟩
    · exact ih (fun a ha => hw a (List.mem_cons_of_mem _ ha))

theorem Parse_drop_of_signature (image : List Byte) (o : Nat)
    (hlen : o + 74 ≤ image.length) (hs : ReadsSignature image o) :
    (ParseEmbeddedFirmwareStructure (NewBuffer (image.drop o))).1 =
      ⟨some (layout (image.drop o)), 74, none⟩ := by
  have hl : (NewBuffer (image.drop o)).buf.length = image.length - o := by
    simp [NewBuffer]
  have hsig : u32At (NewBuffer (image.drop o)).buf 0 = EmbeddedFirmwareStructureSignature := by
    show u32At (image.drop o) 0 = _
    rw [u32At_drop]
    exact hs
  rw [Parse_of_le _ (by rw [hl]; omega), if_neg (by simp [hsig])]
  rfl

theorem Parse_result_signature (r : Reader) (s : EmbeddedFirmwareStructure)
    (h : (ParseEmbeddedFirmwareStructure r).1.result = some s) :
    s.Signature = EmbeddedFirmwareStructureSignature := by
  by_cases hl : r.buf.length < 74
  · rw [Parse_of_lt r hl] at h
    split at h <;> simp at h
  · rw [Parse_of_le r (by omega)] at h
    split at h
    · simp at h
    · rename_i hsig
      have hs : layout r.buf = s := by simpa using h
      rw [← hs]
      exact Decidable.not_not.mp hsig

theorem Parse_reader (r : Reader) :
    (ParseEmbeddedFirmwareStructure r).2.buf = r.buf.drop (min r.buf.length 74) := by
  by_cases hl : r.buf.length < 74
  · rw [Parse_of_lt r hl, Nat.min_eq_left (by omega), List.drop_length]
    by_cases h0 : r.buf.length = 0
    · rw [if_pos h0]
      exact List.length_eq_zero.mp h0
    · rw [if_neg h0]
  · rw [Parse_of_le r (by omega), Nat.min_eq_right (by omega)]
    split <;> rfl

theorem Parse_lt_ne_incorrectSignature (r : Reader) (hl : r.buf.length < 74) (v : Nat) :
    (ParseEmbeddedFirmwareStructure r).1.err ≠ some (.incorrectSignature v) := by
  rw [Parse_of_lt r hl]
  split <;> simp

/-- First match commits on every call that returns: candidates before the first match
cannot have been committed to, so a returning scan gives what the decoder gives at the
first match. -/
theorem findLoop_commit_of_ok (fw : Firmware) (image : List Byte) (addr : Nat)
    (post : List Nat) :
    ∀ (pre : List Nat) (res : FindResult),
      (∀ a ∈ pre, ¬ (InBounds image (fw.offsetOf a) ∧ ReadsSignature image (fw.offsetOf a))) →
      InBounds image (fw.offsetOf addr) → ReadsSignature image (fw.offsetOf addr) →
      findLoop fw image (pre ++ addr :: post) = .ok res →
      res = committed image (fw.offsetOf addr) := by
  intro pre
  induction pre with
  | nil =>
    intro res _ hb hs h
    have hc := findLoop_commit fw image addr post [] (fun a ha => by cases ha) hb hs
    rw [hc] at h
    exact (Except.ok.inj h).symm
  | cons a pre ih =>
    intro res hpre hb hs h
    have ha := hpre a (List.mem_cons_self _ _)
    have hrest := fun x hx => hpre x (List.mem_cons_of_mem _ hx)
    rw [List.cons_append, findLoop_cons] at h
    split at h
    · exact ih res hrest hb hs h
    · split at h
      · cases h
      · split at h
        · cases h
        · rename_i h1 h2 h3
          split at h
          · rename_i h4
            exfalso
            apply ha
            refine ⟨?_, h4⟩
            unfold InBounds
            omega
          · exact ih res hrest hb hs h

/-! # The claims -/

/-! ## C1 -/

/-- C1, as stated, fails: on the 74-byte record `AA 55 AA 55 00 ... 00` the decoder
succeeds and the byte count it returns is not 72. -/
theorem parse_length_ne_72 :
    (ParseEmbeddedFirmwareStructure ⟨sampleRecord⟩).1.err = none ∧
      (ParseEmbeddedFirmwareStructure ⟨sampleRecord⟩).1.length ≠ 72 := by
  decide

/-- C1, amended: whenever `ParseEmbeddedFirmwareStructure` succeeds, the byte count it
returns is exactly 74, the value of `binary.Size` on the record, which is the sum of the
field sizes 4 + 16 + 4 + 4 + 4 + 4 + 4 + 4 + 30 in declared order without padding. -/
theorem parse_success_length (r : Reader)
    (h : (ParseEmbeddedFirmwareStructure r).1.err = none) :
    (ParseEmbeddedFirmwareStructure r).1.length = 74 ∧
      binarySize = 4 + 16 + 4 + 4 + 4 + 4 + 4 + 4 + 30 ∧ binarySize = 74 := by
  refine ⟨?_, rfl, rfl⟩
  by_cases hl : r.buf.length < 74
  · rw [Parse_of_lt r hl] at h
    split at h <;> simp at h
  · rw [Parse_of_le r (by omega)] at h ⊢
    split at h
    · simp at h
    · rename_i hsig
      rw [if_neg hsig]

/-- Witness of `parse_success_length` on the sample record. -/
theorem parse_success_length_witness :
    (ParseEmbeddedFirmwareStructure ⟨sampleRecord⟩).1.err = none ∧
      ((ParseEmbeddedFirmwareStructure ⟨sampleRecord⟩).1.length = 74 ∧
        binarySize = 4 + 16 + 4 + 4 + 4 + 4 + 4 + 4 + 30 ∧ binarySize = 74) :=
  ⟨by decide, parse_success_length ⟨sampleRecord⟩ (by decide)⟩

/-! ## C2 -/

/-- C2: when `FindEmbeddedFirmwareStructure` returns anything but the not-found error,
`Range.Offset` is the translated offset of a candidate that is in bounds
(`offset + 4 <= len(image)`) and whose four bytes read little-endian as `0x55AA55AA`,
and no candidate before it in the order of `addresses` satisfies both conditions. -/
theorem find_match_offset_is_first_match (fw : Firmware) (res : FindResult)
    (h : FindEmbeddedFirmwareStructure fw = .ok res) (hm : res.err ≠ some .notFound) :
    ∃ pre addr post, addresses = pre ++ addr :: post ∧
      res.range.Offset = fw.offsetOf addr ∧ Matches fw addr ∧
      ∀ a ∈ pre, ¬ Matches fw a := by
  obtain ⟨pre, addr, post, hl, hres, hb, hs, hpre⟩ :=
    findLoop_ok_first fw fw.ImageBytes addresses res h hm
  refine ⟨pre, addr, post, hl, ?_, ⟨hb, hs⟩, hpre⟩
  rw [hres]
  rfl

/-- Witness of `find_match_offset_is_first_match`: the record sits at the offset of the
second candidate. -/
theorem find_match_offset_is_first_match_witness :
    FindEmbeddedFirmwareStructure secondCandidateFirmware
        = .ok (committed sampleRecord 0) ∧
      (committed sampleRecord 0).err ≠ some .notFound ∧
      ∃ pre addr post, addresses = pre ++ addr :: post ∧
        (committed sampleRecord 0).range.Offset = secondCandidateFirmware.offsetOf addr ∧
        Matches secondCandidateFirmware addr ∧
        ∀ a ∈ pre, ¬ Matches secondCandidateFirmware a :=
  ⟨by decide, by decide,
    find_match_offset_is_first_match secondCandidateFirmware (committed sampleRecord 0)
      (by decide) (by decide)⟩

/-! ## C3 -/

/-- C3: when no candidate offset wraps (`offset + 4 < 2 ^ 64` for the six candidates),
`FindEmbeddedFirmwareStructure` fails with the not-found error exactly when no candidate
has a translated offset in bounds with the bytes `AA 55 AA 55` there; in that case it
returns no structure and the zero range. -/
theorem find_notFound_iff (fw : Firmware)
    (h : ∀ a ∈ addresses, fw.offsetOf a + 4 < 2 ^ 64) :
    ((∃ res, FindEmbeddedFirmwareStructure fw = .ok res ∧ res.err = some .notFound) ↔
        ∀ a ∈ addresses, ¬ (InBounds fw.ImageBytes (fw.offsetOf a) ∧
          SignatureBytesAt fw.ImageBytes (fw.offsetOf a))) ∧
      ((∀ a ∈ addresses, ¬ (InBounds fw.ImageBytes (fw.offsetOf a) ∧
          SignatureBytesAt fw.ImageBytes (fw.offsetOf a))) →
        FindEmbeddedFirmwareStructure fw = .ok ⟨none, ⟨0, 0⟩, some .notFound⟩) := by
  have key : (∀ a ∈ addresses, ¬ (InBounds fw.ImageBytes (fw.offsetOf a) ∧
      SignatureBytesAt fw.ImageBytes (fw.offsetOf a))) →
      FindEmbeddedFirmwareStructure fw = .ok ⟨none, ⟨0, 0⟩, some .notFound⟩ := by
    intro hn
    refine findLoop_notFound_of_none fw fw.ImageBytes addresses h ?_
    intro a ha hc
    exact hn a ha ⟨hc.1, (signatureBytesAt_iff _ _ hc.1).mpr hc.2⟩
  refine ⟨⟨?_, fun hn => ⟨_, key hn, rfl⟩⟩, key⟩
  rintro ⟨res, hres, herr⟩ a ha hc
  have hc1 : InBounds fw.ImageBytes (fw.offsetOf a) ∧
      ReadsSignature fw.ImageBytes (fw.offsetOf a) :=
    ⟨hc.1, (signatureBytesAt_iff _ _ hc.1).mp hc.2⟩
  have hnone : ∀ l : List Nat, (∀ x ∈ l, fw.offsetOf x + 4 < 2 ^ 64) →
      ∀ r, findLoop fw fw.ImageBytes l = .ok r → r.err = some .notFound →
      ∀ x ∈ l, ¬ (InBounds fw.ImageBytes (fw.offsetOf x) ∧
        ReadsSignature fw.ImageBytes (fw.offsetOf x)) := by
    intro l
    induction l with
    | nil => intro _ _ _ _ x hx; cases hx
    | cons b rest ih =>
      intro hw r hr he x hx
      rw [findLoop_cons_of_noWrap fw fw.ImageBytes b rest (hw b (List.mem_cons_self _ _))] at hr
      split at hr
      · have := Except.ok.inj hr
        rw [← this] at he
        exact absurd he (committed_err_ne_notFound _ _)
      · rename_i hb
        rcases List.mem_cons.mp hx with rfl | hx
        · exact hb
        · exact ih (fun y hy => hw y (List.mem_cons_of_mem _ hy)) r hr he x hx
  exact hnone addresses h res hres herr a ha hc1

/-- Witness of `find_notFound_iff`: an image of length `0x10000` holding only zero
bytes, mapped so that it ends at 4 GiB. -/
theorem find_notFound_iff_witness :
    (∀ a ∈ addresses, smallFirmware.offsetOf a + 4 < 2 ^ 64) ∧
      smallFirmware.ImageBytes.length = 0x10000 ∧
      FindEmbeddedFirmwareStructure smallFirmware = .ok ⟨none, ⟨0, 0⟩, some .notFound⟩ :=
  have hlen : smallFirmware.ImageBytes.length = 0x10000 := List.length_replicate _ _
  have hout : ∀ a ∈ addresses, ¬ (smallFirmware.offsetOf a + 4 ≤ 0x10000) := by decide
  ⟨by decide, hlen,
    (find_notFound_iff smallFirmware (by decide)).2 (fun a ha hc => hout a ha (by
      have hb := hc.1
      unfold InBounds at hb
      rw [hlen] at hb
      exact hb))⟩

/-! ## C4 -/

/-- C4 fails on the code: with a translation that returns `2 ^ 64 - 1`, every candidate
is out of range of the four-byte image over the naturals, yet `offset + 4` wraps to 3,
the bounds test of line 52 passes, and the slice `image[offset:]` of line 56 panics. -/
theorem find_wrapped_offset_panics :
    (∀ a ∈ addresses, ¬ InBounds wrappedFirmware.ImageBytes (wrappedFirmware.offsetOf a)) ∧
      (wrappedFirmware.offsetOf 0xfffa0000 + 4) % 2 ^ 64 = 3 ∧
      FindEmbeddedFirmwareStructure wrappedFirmware = .error .sliceBoundsOutOfRange := by
  decide

/-! ## C5 -/

/-- C5 fails on the code: in `wrapThenMatchFirmware` the first candidate is out of range
over the naturals, the second is the first in-bounds candidate with the signature and
its decoding fails with the unexpected-end error, yet the call does not return that
failure: the wrapped bounds test of line 52 lets the first candidate through and the
slice of line 56 panics. -/
theorem wrap_defeats_first_match :
    ¬ Matches wrapThenMatchFirmware 0xfffa0000 ∧ Matches wrapThenMatchFirmware 0xfff20000 ∧
      (ParseEmbeddedFirmwareStructure (NewBuffer (wrapThenMatchFirmware.ImageBytes.drop
        (wrapThenMatchFirmware.offsetOf 0xfff20000)))).1.err = some .ErrUnexpectedEOF ∧
      FindEmbeddedFirmwareStructure wrapThenMatchFirmware ≠
        .ok ⟨none, ⟨wrapThenMatchFirmware.offsetOf 0xfff20000, 0⟩, some .ErrUnexpectedEOF⟩ ∧
      FindEmbeddedFirmwareStructure wrapThenMatchFirmware = .error .sliceBoundsOutOfRange := by
  decide

/-- First match commits on every call that returns: if `addr` is the first candidate
that is in bounds with a matching signature and the decoder fails with `e` on the image
from its offset, then whatever `FindEmbeddedFirmwareStructure` returns is that failure
with the range `(offset, 0)`, whatever the later candidates `post` hold.  The only way
not to return it is the panic of a wrapped earlier candidate. -/
theorem first_match_commits_of_return (fw : Firmware) (pre : List Nat) (addr : Nat)
    (post : List Nat) (e : Error) (res : FindResult)
    (hl : addresses = pre ++ addr :: post) (hpre : ∀ a ∈ pre, ¬ Matches fw a)
    (hm : Matches fw addr)
    (he : (ParseEmbeddedFirmwareStructure
      (NewBuffer (fw.ImageBytes.drop (fw.offsetOf addr)))).1.err = some e)
    (hret : FindEmbeddedFirmwareStructure fw = .ok res) :
    res = ⟨none, ⟨fw.offsetOf addr, 0⟩, some e⟩ := by
  unfold FindEmbeddedFirmwareStructure at hret
  rw [hl] at hret
  rw [findLoop_commit_of_ok fw fw.ImageBytes addr post pre res hpre hm.1 hm.2 hret]
  unfold committed
  simp only []
  rw [Parse_of_err _ e he]

/-- First match commits when no earlier candidate wraps.  If `addr` is the first
candidate that is in bounds with a matching signature, no candidate before it has a
wrapping bounds test (`offset + 4 < 2 ^ 64`), and the decoder fails with `e` on the
image from that offset, then `FindEmbeddedFirmwareStructure` returns that failure with
the range `(offset, 0)`, whatever the later candidates `post` hold. -/
theorem first_match_commits (fw : Firmware) (pre : List Nat) (addr : Nat) (post : List Nat)
    (e : Error) (hl : addresses = pre ++ addr :: post)
    (hpre : ∀ a ∈ pre, ¬ Matches fw a ∧ fw.offsetOf a + 4 < 2 ^ 64)
    (hm : Matches fw addr)
    (he : (ParseEmbeddedFirmwareStructure
      (NewBuffer (fw.ImageBytes.drop (fw.offsetOf addr)))).1.err = some e) :
    FindEmbeddedFirmwareStructure fw = .ok ⟨none, ⟨fw.offsetOf addr, 0⟩, some e⟩ := by
  unfold FindEmbeddedFirmwareStructure
  rw [hl, findLoop_commit fw fw.ImageBytes addr post pre hpre hm.1 hm.2]
  unfold committed
  simp only []
  rw [Parse_of_err _ e he]

/-- The two facts above at a concrete input: the first candidate is out of the image, the
second points at four signature bytes at the end of the image, the third at a complete
record that decodes; the call returns the short read of the second. -/
theorem first_match_commits_witness :
    addresses = [0xfffa0000] ++ 0xfff20000 ::
        [0xffe20000, 0xffc20000, 0xff820000, 0xff020000] ∧
      (∀ a ∈ [0xfffa0000], ¬ Matches truncatedSecondFirmware a ∧
        truncatedSecondFirmware.offsetOf a + 4 < 2 ^ 64) ∧
      Matches truncatedSecondFirmware 0xfff20000 ∧
      (ParseEmbeddedFirmwareStructure (NewBuffer (truncatedSecondFirmware.ImageBytes.drop
        (truncatedSecondFirmware.offsetOf 0xfff20000)))).1.err = some .ErrUnexpectedEOF ∧
      Matches truncatedSecondFirmware 0xffe20000 ∧
      (ParseEmbeddedFirmwareStructure (NewBuffer (truncatedSecondFirmware.ImageBytes.drop
        (truncatedSecondFirmware.offsetOf 0xffe20000)))).1.err = none ∧
      FindEmbeddedFirmwareStructure truncatedSecondFirmware =
        .ok ⟨none, ⟨truncatedSecondFirmware.offsetOf 0xfff20000, 0⟩,
          some .ErrUnexpectedEOF⟩ ∧
      (FindResult.mk none ⟨74, 0⟩ (some .ErrUnexpectedEOF)) =
        ⟨none, ⟨truncatedSecondFirmware.offsetOf 0xfff20000, 0⟩, some .ErrUnexpectedEOF⟩ :=
  ⟨by decide, by decide, by decide, by decide, by decide, by decide,
    first_match_commits truncatedSecondFirmware [0xfffa0000] 0xfff20000
      [0xffe20000, 0xffc20000, 0xff820000, 0xff020000] .ErrUnexpectedEOF
      (by decide) (by decide) (by decide) (by decide),
    first_match_commits_of_return truncatedSecondFirmware [0xfffa0000] 0xfff20000
      [0xffe20000, 0xffc20000, 0xff820000, 0xff020000] .ErrUnexpectedEOF
      ⟨none, ⟨74, 0⟩, some .ErrUnexpectedEOF⟩
      (by decide) (by decide) (by decide) (by decide) (by decide)⟩

/-! ## C6 -/

/-- C6, as stated, fails: a sequence of exactly 72 bytes that starts with `AA 55 AA 55`
is not decoded; the read ends early. -/
theorem parse_72_bytes_fails :
    shortRecord.length = 72 ∧ shortRecord.take 4 = [0xAA, 0x55, 0xAA, 0x55] ∧
      (ParseEmbeddedFirmwareStructure ⟨shortRecord⟩).1 = ⟨none, 0, some .ErrUnexpectedEOF⟩ := by
  decide

/-- C6, amended: every byte sequence of at least 74 bytes whose first four bytes are
`AA 55 AA 55` is decoded successfully, whatever the other 70 bytes of the record are. -/
theorem parse_succeeds_of_signature (r : Reader) (hlen : 74 ≤ r.buf.length)
    (hsig : r.buf.take 4 = [0xAA, 0x55, 0xAA, 0x55]) :
    ∃ s, (ParseEmbeddedFirmwareStructure r).1 = ⟨some s, 74, none⟩ := by
  have h : u32At r.buf 0 = EmbeddedFirmwareStructureSignature :=
    (take4_eq_iff r.buf (by omega)).mp hsig
  rw [Parse_of_le r hlen, if_neg (by simp [h])]
  exact ⟨_, rfl⟩

/-- Witness of `parse_succeeds_of_signature` on a record filled with `FF`. -/
theorem parse_succeeds_of_signature_witness :
    74 ≤ onesRecord.length ∧ onesRecord.take 4 = [0xAA, 0x55, 0xAA, 0x55] ∧
      ∃ s, (ParseEmbeddedFirmwareStructure ⟨onesRecord⟩).1 = ⟨some s, 74, none⟩ :=
  ⟨by decide, by decide, parse_succeeds_of_signature ⟨onesRecord⟩ (by decide) (by decide)⟩

/-! ## C7 -/

/-- C7: from a reader with fewer than 72 bytes `ParseEmbeddedFirmwareStructure` fails
with the end-of-input error of the read (`io.EOF` on an empty reader,
`io.ErrUnexpectedEOF` otherwise), returns no structure and count 0, whatever the bytes
are, and the error is never the incorrect-signature one. -/
theorem parse_short_read (r : Reader) (h : r.buf.length < 72) :
    (ParseEmbeddedFirmwareStructure r).1 =
        ⟨none, 0, some (if r.buf.length = 0 then .EOF else .ErrUnexpectedEOF)⟩ ∧
      ∀ v, (ParseEmbeddedFirmwareStructure r).1.err ≠ some (.incorrectSignature v) := by
  rw [Parse_of_lt r (by omega)]
  by_cases h0 : r.buf.length = 0
  · rw [if_pos h0, if_pos h0]
    exact ⟨rfl, fun v => by simp⟩
  · rw [if_neg h0, if_neg h0]
    exact ⟨rfl, fun v => by simp⟩

/-- Witness of `parse_short_read`: 71 bytes that do not even start with the signature. -/
theorem parse_short_read_witness :
    (List.replicate 71 (1 : Byte)).length < 72 ∧
      ((ParseEmbeddedFirmwareStructure ⟨List.replicate 71 1⟩).1 =
          ⟨none, 0, some (if (Reader.mk (List.replicate 71 1)).buf.length = 0 then .EOF
            else .ErrUnexpectedEOF)⟩ ∧
        ∀ v, (ParseEmbeddedFirmwareStructure ⟨List.replicate 71 1⟩).1.err ≠
          some (.incorrectSignature v)) :=
  ⟨by decide, parse_short_read ⟨List.replicate 71 1⟩ (by decide)⟩

/-! ## C8 -/

/-- C8: from a reader holding a full record (74 bytes) whose first four bytes read
little-endian as `v` with `v ≠ 0x55AA55AA`, `ParseEmbeddedFirmwareStructure` fails with
the incorrect-signature error carrying `v`, whose text is `incorrect signature: `
followed by `v` in decimal. -/
theorem parse_incorrect_signature (r : Reader) (hlen : 74 ≤ r.buf.length)
    (hsig : u32At r.buf 0 ≠ EmbeddedFirmwareStructureSignature) :
    (ParseEmbeddedFirmwareStructure r).1 =
        ⟨none, 0, some (.incorrectSignature (u32At r.buf 0))⟩ ∧
      (Error.incorrectSignature (u32At r.buf 0)).message =
        "incorrect signature: " ++ Nat.repr (u32At r.buf 0) := by
  rw [Parse_of_le r hlen, if_pos hsig]
  exact ⟨rfl, rfl⟩

/-- Witness of `parse_incorrect_signature`: 74 bytes `01` read as 16843009. -/
theorem parse_incorrect_signature_witness :
    74 ≤ (List.replicate 74 (1 : Byte)).length ∧
      u32At (List.replicate 74 1) 0 = 16843009 ∧
      ((ParseEmbeddedFirmwareStructure ⟨List.replicate 74 1⟩).1 =
          ⟨none, 0, some (.incorrectSignature (u32At (Reader.mk (List.replicate 74 1)).buf 0))⟩ ∧
        (Error.incorrectSignature (u32At (Reader.mk (List.replicate 74 1)).buf 0)).message =
          "incorrect signature: " ++ Nat.repr (u32At (Reader.mk (List.replicate 74 1)).buf 0)) :=
  ⟨by decide, by decide, parse_incorrect_signature ⟨List.replicate 74 1⟩ (by decide) (by decide)⟩

/-! ## C9 -/

/-- C9: when `ParseEmbeddedFirmwareStructure` succeeds with the structure `s`, every
field of `s` is the little-endian reading of the input at its position in declared order
without padding: `Signature` at bytes 0..3, `Reserved1` the 16 bytes 4..19,
`PSPDirectoryTablePointer` at 20, the three BIOS directory pointers at 24, 28 and 32,
`Reserved2` at 36, `BIOSDirectoryTableFamily17hModels60h3FhPointer` at 40 and `Reserved3`
the 30 bytes from 44 to the end of the record. -/
theorem parse_fields (r : Reader) (s : EmbeddedFirmwareStructure)
    (h : (ParseEmbeddedFirmwareStructure r).1.result = some s) :
    s.Signature = u32At r.buf 0 ∧
      s.Reserved1 = (r.buf.drop 4).take 16 ∧ s.Reserved1.length = 16 ∧
      s.PSPDirectoryTablePointer = u32At r.buf 20 ∧
      s.BIOSDirectoryTableFamily17hModels00h0FhPointer = u32At r.buf 24 ∧
      s.BIOSDirectoryTableFamily17hModels10h1FhPointer = u32At r.buf 28 ∧
      s.BIOSDirectoryTableFamily17hModels30h3FhPointer = u32At r.buf 32 ∧
      s.Reserved2 = u32At r.buf 36 ∧
      s.BIOSDirectoryTableFamily17hModels60h3FhPointer = u32At r.buf 40 ∧
      s.Reserved3 = (r.buf.drop 44).take 30 ∧ s.Reserved3.length = 30 := by
  by_cases hl : r.buf.length < 74
  · rw [Parse_of_lt r hl] at h
    split at h <;> simp at h
  · have hlen : 74 ≤ r.buf.length := by omega
    rw [Parse_of_le r hlen] at h
    split at h
    · simp at h
    · have hs : layout r.buf = s := by simpa using h
      subst hs
      refine ⟨rfl, rfl, ?_, rfl, rfl, rfl, rfl, rfl, rfl, rfl, ?_⟩
      · simp only [layout, List.length_take, List.length_drop]
        omega
      · simp only [layout, List.length_take, List.length_drop]
        omega

/-- Witness of `parse_fields` on the record whose byte at position `i` is `i`: the
pointer at offset 20 reads `0x17161514`. -/
theorem parse_fields_witness :
    (ParseEmbeddedFirmwareStructure ⟨countingRecord⟩).1.result = some (layout countingRecord) ∧
      (layout countingRecord).PSPDirectoryTablePointer = 0x17161514 ∧
      ((layout countingRecord).Signature = u32At (Reader.mk countingRecord).buf 0 ∧
        (layout countingRecord).Reserved1 = ((Reader.mk countingRecord).buf.drop 4).take 16 ∧
        (layout countingRecord).Reserved1.length = 16 ∧
        (layout countingRecord).PSPDirectoryTablePointer
          = u32At (Reader.mk countingRecord).buf 20 ∧
        (layout countingRecord).BIOSDirectoryTableFamily17hModels00h0FhPointer
          = u32At (Reader.mk countingRecord).buf 24 ∧
        (layout countingRecord).BIOSDirectoryTableFamily17hModels10h1FhPointer
          = u32At (Reader.mk countingRecord).buf 28 ∧
        (layout countingRecord).BIOSDirectoryTableFamily17hModels30h3FhPointer
          = u32At (Reader.mk countingRecord).buf 32 ∧
        (layout countingRecord).Reserved2 = u32At (Reader.mk countingRecord).buf 36 ∧
        (layout countingRecord).BIOSDirectoryTableFamily17hModels60h3FhPointer
          = u32At (Reader.mk countingRecord).buf 40 ∧
        (layout countingRecord).Reserved3 = ((Reader.mk countingRecord).buf.drop 44).take 30 ∧
        (layout countingRecord).Reserved3.length = 30) :=
  ⟨by decide, by decide, parse_fields ⟨countingRecord⟩ (layout countingRecord) (by decide)⟩

/-! ## C10 -/

/-- C10, as stated, fails: the little-endian record of a structure with the signature
does not have 72 bytes, and its first 72 bytes are not decoded. -/
theorem encoding_is_not_72_bytes :
    zeroStructure.WellTyped ∧
      zeroStructure.Signature = EmbeddedFirmwareStructureSignature ∧
      (binaryWrite zeroStructure).length ≠ 72 ∧
      (ParseEmbeddedFirmwareStructure (NewBuffer ((binaryWrite zeroStructure).take 72))).1 =
        ⟨none, 0, some .ErrUnexpectedEOF⟩ := by
  decide

/-- C10, amended: round trip.  For every structure `s` of the Go type whose `Signature`
is `0x55AA55AA`, its little-endian record (fields in declared order, no padding) has 74
bytes, and `ParseEmbeddedFirmwareStructure` on those bytes succeeds and returns `s`
itself, reserved regions included. -/
theorem roundtrip (s : EmbeddedFirmwareStructure) (hw : s.WellTyped)
    (hs : s.Signature = EmbeddedFirmwareStructureSignature) :
    (binaryWrite s).length = 74 ∧
      (ParseEmbeddedFirmwareStructure (NewBuffer (binaryWrite s))).1 = ⟨some s, 74, none⟩ := by
  have hlen := length_binaryWrite s hw
  have hlay := layout_binaryWrite s hw
  refine ⟨hlen, ?_⟩
  have hsig : u32At (NewBuffer (binaryWrite s)).buf 0 = EmbeddedFirmwareStructureSignature := by
    have : (layout (binaryWrite s)).Signature = s.Signature := by rw [hlay]
    exact this.trans hs
  rw [Parse_of_le (NewBuffer (binaryWrite s)) (by show 74 ≤ (binaryWrite s).length; omega),
    if_neg (by simp [hsig])]
  show (⟨some (layout (binaryWrite s)), 74, none⟩ : ParseResult) = _
  rw [hlay]

/-- Witness of `roundtrip` on a structure with distinct values in every field. -/
theorem roundtrip_witness :
    variedStructure.WellTyped ∧
      variedStructure.Signature = EmbeddedFirmwareStructureSignature ∧
      ((binaryWrite variedStructure).length = 74 ∧
        (ParseEmbeddedFirmwareStructure (NewBuffer (binaryWrite variedStructure))).1 =
          ⟨some variedStructure, 74, none⟩) :=
  ⟨by decide, by decide, roundtrip variedStructure (by decide) (by decide)⟩

/-! ## C11 -/

/-- C11, as stated, fails: when the second candidate `0xfff20000` is the first match and
its offset holds `AA 55 AA 55` followed by 68 more bytes, the call returns the
unexpected-end error with the range `(0, 0)`; and on a complete record the length of the
returned range is 74, not 72. -/
theorem find_72_byte_record_fails :
    ¬ Matches shortSecondFirmware 0xfffa0000 ∧ Matches shortSecondFirmware 0xfff20000 ∧
      shortSecondFirmware.ImageBytes.drop (shortSecondFirmware.offsetOf 0xfff20000) =
        [0xAA, 0x55, 0xAA, 0x55] ++ List.replicate 68 0 ∧
      FindEmbeddedFirmwareStructure shortSecondFirmware =
        .ok ⟨none, ⟨0, 0⟩, some .ErrUnexpectedEOF⟩ ∧
      FindEmbeddedFirmwareStructure secondCandidateFirmware =
        .ok ⟨some zeroStructure, ⟨0, 74⟩, none⟩ := by
  decide

/-- C11, amended: if the first candidate `0xfffa0000` does not match and its bounds test
does not wrap (`offset + 4 < 2 ^ 64`), and the image holds `AA 55 AA 55` followed by 70
more bytes at the translated offset `o` of `0xfff20000`, then
`FindEmbeddedFirmwareStructure` succeeds and returns the range `(o, 74)` together with
the structure that `ParseEmbeddedFirmwareStructure` decodes from the image from `o` on. -/
theorem find_second_candidate (fw : Firmware) (o : Nat) (ho : fw.offsetOf 0xfff20000 = o)
    (hfirst : ¬ Matches fw 0xfffa0000) (hw : fw.offsetOf 0xfffa0000 + 4 < 2 ^ 64)
    (hlen : o + 74 ≤ fw.ImageBytes.length) (hsig : SignatureBytesAt fw.ImageBytes o) :
    ∃ s, (ParseEmbeddedFirmwareStructure (NewBuffer (fw.ImageBytes.drop o))).1
          = ⟨some s, 74, none⟩ ∧
      FindEmbeddedFirmwareStructure fw = .ok ⟨some s, ⟨o, 74⟩, none⟩ := by
  subst ho
  have hb : InBounds fw.ImageBytes (fw.offsetOf 0xfff20000) := by
    unfold InBounds
    omega
  have hs : ReadsSignature fw.ImageBytes (fw.offsetOf 0xfff20000) :=
    (signatureBytesAt_iff _ _ hb).mp hsig
  have hl : addresses = [0xfffa0000] ++ 0xfff20000 ::
      [0xffe20000, 0xffc20000, 0xff820000, 0xff020000] := rfl
  have hfind : FindEmbeddedFirmwareStructure fw
      = .ok (committed fw.ImageBytes (fw.offsetOf 0xfff20000)) := by
    unfold FindEmbeddedFirmwareStructure
    rw [hl]
    refine findLoop_commit fw fw.ImageBytes _ _ [0xfffa0000] ?_ hb hs
    intro a ha
    rcases List.mem_singleton.mp ha with rfl
    exact ⟨hfirst, hw⟩
  have hp := Parse_drop_of_signature fw.ImageBytes _ hlen hs
  refine ⟨_, hp, ?_⟩
  rw [hfind]
  unfold committed
  simp only []
  rw [hp]

/-- Witness of `find_second_candidate`: the record sits at offset 4, behind four zero
bytes that the first candidate points at. -/
theorem find_second_candidate_witness :
    offsetSecondFirmware.offsetOf 0xfff20000 = 4 ∧
      ¬ Matches offsetSecondFirmware 0xfffa0000 ∧
      offsetSecondFirmware.offsetOf 0xfffa0000 + 4 < 2 ^ 64 ∧
      4 + 74 ≤ offsetSecondFirmware.ImageBytes.length ∧
      SignatureBytesAt offsetSecondFirmware.ImageBytes 4 ∧
      ∃ s, (ParseEmbeddedFirmwareStructure
            (NewBuffer (offsetSecondFirmware.ImageBytes.drop 4))).1 = ⟨some s, 74, none⟩ ∧
        FindEmbeddedFirmwareStructure offsetSecondFirmware = .ok ⟨some s, ⟨4, 74⟩, none⟩ :=
  ⟨by decide, by decide, by decide, by decide, by decide,
    find_second_candidate offsetSecondFirmware 4 (by decide) (by decide) (by decide)
      (by decide) (by decide)⟩

/-! ## C12 -/

/-- C12: a structure returned by `ParseEmbeddedFirmwareStructure` or by
`FindEmbeddedFirmwareStructure` has `Signature` equal to `0x55AA55AA`. -/
theorem returned_signature (r : Reader) (fw : Firmware) (s : EmbeddedFirmwareStructure)
    (h : (ParseEmbeddedFirmwareStructure r).1.result = some s ∨
      ∃ res, FindEmbeddedFirmwareStructure fw = .ok res ∧ res.result = some s) :
    s.Signature = EmbeddedFirmwareStructureSignature := by
  rcases h with h | ⟨res, hres, hs⟩
  · exact Parse_result_signature r s h
  · have hne : res.err ≠ some .notFound := by
      intro he
      have := findLoop_notFound_shape fw fw.ImageBytes addresses res hres he
      rw [this] at hs
      cases hs
    obtain ⟨_, addr, _, _, hc, _, _, _⟩ :=
      findLoop_ok_first fw fw.ImageBytes addresses res hres hne
    rw [hc] at hs
    exact Parse_result_signature _ s hs

/-- Witness of `returned_signature`: the sample record, decoded directly and found
through the second candidate. -/
theorem returned_signature_witness :
    (ParseEmbeddedFirmwareStructure ⟨sampleRecord⟩).1.result = some zeroStructure ∧
      FindEmbeddedFirmwareStructure secondCandidateFirmware
        = .ok ⟨some zeroStructure, ⟨0, 74⟩, none⟩ ∧
      zeroStructure.Signature = EmbeddedFirmwareStructureSignature :=
  ⟨by decide, by decide,
    returned_signature ⟨sampleRecord⟩ secondCandidateFirmware zeroStructure
      (Or.inl (by decide))⟩

/-! ## C13 -/

/-- C13: whatever `FindEmbeddedFirmwareStructure` returns, its error is nil, the
not-found error or `io.ErrUnexpectedEOF`; it is never the incorrect-signature error and
never the plain `io.EOF`. -/
theorem find_errors (fw : Firmware) (res : FindResult)
    (h : FindEmbeddedFirmwareStructure fw = .ok res) :
    (res.err = none ∨ res.err = some .notFound ∨ res.err = some .ErrUnexpectedEOF) ∧
      (∀ v, res.err ≠ some (.incorrectSignature v)) ∧ res.err ≠ some .EOF := by
  have key : res.err = none ∨ res.err = some .notFound ∨ res.err = some .ErrUnexpectedEOF := by
    by_cases hn : res.err = some .notFound
    · exact Or.inr (Or.inl hn)
    · obtain ⟨_, addr, _, _, hc, hb, hs, _⟩ :=
        findLoop_ok_first fw fw.ImageBytes addresses res h hn
      rw [hc, committed_eq _ _ hb hs]
      split
      · exact Or.inl rfl
      · exact Or.inr (Or.inr rfl)
  refine ⟨key, ?_, ?_⟩
  · intro v hv
    rw [hv] at key
    simp at key
  · intro hv
    rw [hv] at key
    simp at key

/-- Witness of `find_errors`: a signature match four bytes before the end of the image
gives `io.ErrUnexpectedEOF`. -/
theorem find_errors_witness :
    FindEmbeddedFirmwareStructure truncatedFirstFirmware
        = .ok ⟨none, ⟨74, 0⟩, some .ErrUnexpectedEOF⟩ ∧
      ((some Error.ErrUnexpectedEOF = none ∨ some Error.ErrUnexpectedEOF = some .notFound ∨
          some Error.ErrUnexpectedEOF = some .ErrUnexpectedEOF) ∧
        (∀ v, some Error.ErrUnexpectedEOF ≠ some (.incorrectSignature v)) ∧
        some Error.ErrUnexpectedEOF ≠ some .EOF) :=
  ⟨by decide,
    find_errors truncatedFirstFirmware ⟨none, ⟨74, 0⟩, some .ErrUnexpectedEOF⟩ (by decide)⟩

/-! ## C14 -/

/-- C14: `ParseEmbeddedFirmwareStructure` succeeds exactly when the input has at least
74 bytes and starts with `AA 55 AA 55`; on success it returns a structure with the count
74, and any other input with the same first 74 bytes gives the same result. -/
theorem parse_success_iff (r r1 : Reader) :
    ((ParseEmbeddedFirmwareStructure r).1.err = none ↔
        74 ≤ r.buf.length ∧ r.buf.take 4 = [0xAA, 0x55, 0xAA, 0x55]) ∧
      ((ParseEmbeddedFirmwareStructure r).1.err = none →
        (∃ s, (ParseEmbeddedFirmwareStructure r).1 = ⟨some s, 74, none⟩) ∧
        (r1.buf.take 74 = r.buf.take 74 →
          (ParseEmbeddedFirmwareStructure r1).1 = (ParseEmbeddedFirmwareStructure r).1)) := by
  have hiff : (ParseEmbeddedFirmwareStructure r).1.err = none ↔
      74 ≤ r.buf.length ∧ r.buf.take 4 = [0xAA, 0x55, 0xAA, 0x55] := by
    by_cases hl : r.buf.length < 74
    · rw [Parse_of_lt r hl]
      constructor
      · intro h
        split at h <;> simp at h
      · intro h
        omega
    · have hlen : 74 ≤ r.buf.length := by omega
      rw [Parse_of_le r hlen, take4_eq_iff r.buf (by omega)]
      by_cases hs : u32At r.buf 0 = EmbeddedFirmwareStructureSignature
      · rw [if_neg (by simp [hs])]
        exact ⟨fun _ => ⟨hlen, hs⟩, fun _ => rfl⟩
      · rw [if_pos hs]
        exact ⟨fun h => by simp at h, fun h => absurd h.2 hs⟩
  refine ⟨hiff, fun hok => ?_⟩
  obtain ⟨hlen, htake⟩ := hiff.mp hok
  have hs : u32At r.buf 0 = EmbeddedFirmwareStructureSignature :=
    (take4_eq_iff r.buf (by omega)).mp htake
  have hp : (ParseEmbeddedFirmwareStructure r).1 = ⟨some (layout r.buf), 74, none⟩ := by
    rw [Parse_of_le r hlen, if_neg (by simp [hs])]
  refine ⟨⟨_, hp⟩, fun heq => ?_⟩
  have hlen1 : 74 ≤ r1.buf.length := by
    have h1 : (r1.buf.take 74).length = (r.buf.take 74).length := by rw [heq]
    simp only [List.length_take] at h1
    omega
  have hlay : layout r1.buf = layout r.buf := by
    rw [← layout_take r1.buf, heq, layout_take]
  have hs1 : u32At r1.buf 0 = EmbeddedFirmwareStructureSignature := by
    have : (layout r1.buf).Signature = (layout r.buf).Signature := by rw [hlay]
    exact this.trans hs
  rw [hp, Parse_of_le r1 hlen1, if_neg (by simp [hs1])]
  show (⟨some (layout r1.buf), 74, none⟩ : ParseResult) = _
  rw [hlay]

/-- Witness of `parse_success_iff`: the sample record, alone and followed by more bytes. -/
theorem parse_success_iff_witness :
    (ParseEmbeddedFirmwareStructure ⟨sampleRecord⟩).1.err = none ∧
      (Reader.mk (sampleRecord ++ [1, 2, 3])).buf.take 74 = (Reader.mk sampleRecord).buf.take 74 ∧
      (ParseEmbeddedFirmwareStructure ⟨sampleRecord ++ [1, 2, 3]⟩).1
        = (ParseEmbeddedFirmwareStructure ⟨sampleRecord⟩).1 :=
  ⟨by decide, by decide,
    ((parse_success_iff ⟨sampleRecord⟩ ⟨sampleRecord ++ [1, 2, 3]⟩).2 (by decide)).2
      (by decide)⟩

/-! ## C15 -/

/-- C15: when no candidate offset wraps (`offset + 4 < 2 ^ 64` for the six candidates),
`FindEmbeddedFirmwareStructure` returns without a panic, and every candidate that passes
the bounds test of line 52 has `offset + 4 <= len(image)`, so that the slice
`image[offset:]` is taken within bounds and holds the four bytes that `Uint32` reads. -/
theorem find_no_panic (fw : Firmware)
    (h : ∀ a ∈ addresses, fw.offsetOf a + 4 < 2 ^ 64) :
    (∃ res, FindEmbeddedFirmwareStructure fw = .ok res) ∧
      ∀ a ∈ addresses, ¬ ((fw.offsetOf a + 4) % 2 ^ 64 > fw.ImageBytes.length) →
        InBounds fw.ImageBytes (fw.offsetOf a) ∧
        sliceFrom fw.ImageBytes (fw.offsetOf a) = .ok (fw.ImageBytes.drop (fw.offsetOf a)) ∧
        ∃ v, LittleEndianUint32 (fw.ImageBytes.drop (fw.offsetOf a)) = .ok v := by
  refine ⟨findLoop_returns_of_noWrap fw fw.ImageBytes addresses h, ?_⟩
  intro a ha hpass
  have hw := h a ha
  rw [Nat.mod_eq_of_lt hw] at hpass
  have hb : fw.offsetOf a + 4 ≤ fw.ImageBytes.length := by omega
  refine ⟨hb, ?_, ?_⟩
  · simp [sliceFrom, show fw.offsetOf a ≤ fw.ImageBytes.length by omega]
  · rw [Uint32_eq, if_pos (by simp; omega)]
    exact ⟨_, rfl⟩

/-- Witness of `find_no_panic`: the image with a truncated record behind a complete one. -/
theorem find_no_panic_witness :
    (∀ a ∈ addresses, truncatedFirstFirmware.offsetOf a + 4 < 2 ^ 64) ∧
      (∃ res, FindEmbeddedFirmwareStructure truncatedFirstFirmware = .ok res) ∧
      InBounds truncatedFirstFirmware.ImageBytes (truncatedFirstFirmware.offsetOf 0xfffa0000) :=
  ⟨by decide, (find_no_panic truncatedFirstFirmware (by decide)).1,
    ((find_no_panic truncatedFirstFirmware (by decide)).2 0xfffa0000 (by decide)
      (by decide)).1⟩

/-! ## C16 -/

/-- C16: when `ParseEmbeddedFirmwareStructure` fails it returns no structure and the
count 0.  When `FindEmbeddedFirmwareStructure` fails it returns no structure and a range
of length 0; the offset of the range is 0 for the not-found error, and for any other
error it is the translated offset of the first matching candidate, on which the decoder
failed with that error. -/
theorem failure_outputs (r : Reader) (fw : Firmware) (res : FindResult) (e e1 : Error) :
    ((ParseEmbeddedFirmwareStructure r).1.err = some e →
        (ParseEmbeddedFirmwareStructure r).1.result = none ∧
        (ParseEmbeddedFirmwareStructure r).1.length = 0) ∧
      (FindEmbeddedFirmwareStructure fw = .ok res → res.err = some e1 →
        res.result = none ∧ res.range.Length = 0 ∧
        (e1 = .notFound → res.range.Offset = 0) ∧
        (e1 ≠ .notFound → ∃ pre addr post, addresses = pre ++ addr :: post ∧
          Matches fw addr ∧ (∀ a ∈ pre, ¬ Matches fw a) ∧
          res.range.Offset = fw.offsetOf addr ∧
          (ParseEmbeddedFirmwareStructure
            (NewBuffer (fw.ImageBytes.drop (fw.offsetOf addr)))).1.err = some e1)) := by
  constructor
  · intro h
    rw [Parse_of_err r e h]
    exact ⟨rfl, rfl⟩
  · intro hres he
    by_cases hn : e1 = .notFound
    · subst hn
      have hshape := findLoop_notFound_shape fw fw.ImageBytes addresses res hres he
      rw [hshape]
      exact ⟨rfl, rfl, fun _ => rfl, fun h => absurd rfl h⟩
    · have hne : res.err ≠ some .notFound := by
        rw [he]
        intro hc
        exact hn (Option.some.inj hc)
      obtain ⟨pre, addr, post, hl, hc, hb, hs, hpre⟩ :=
        findLoop_ok_first fw fw.ImageBytes addresses res hres hne
      have hperr : (ParseEmbeddedFirmwareStructure
          (NewBuffer (fw.ImageBytes.drop (fw.offsetOf addr)))).1.err = some e1 := by
        rw [hc] at he
        exact he
      have hp := Parse_of_err _ e1 hperr
      have hres2 : res = ⟨none, ⟨fw.offsetOf addr, 0⟩, some e1⟩ := by
        rw [hc]
        unfold committed
        simp only []
        rw [hp]
      rw [hres2]
      exact ⟨rfl, rfl, fun h => absurd h hn,
        fun _ => ⟨pre, addr, post, hl, ⟨hb, hs⟩, hpre, rfl, hperr⟩⟩

/-- Witness of `failure_outputs`: an incorrect signature for the decoder, and for the
lookup a signature match at offset 74 that is cut short. -/
theorem failure_outputs_witness :
    (ParseEmbeddedFirmwareStructure ⟨List.replicate 74 1⟩).1.err
        = some (.incorrectSignature 16843009) ∧
      ((ParseEmbeddedFirmwareStructure ⟨List.replicate 74 1⟩).1.result = none ∧
        (ParseEmbeddedFirmwareStructure ⟨List.replicate 74 1⟩).1.length = 0) ∧
      FindEmbeddedFirmwareStructure truncatedFirstFirmware
        = .ok ⟨none, ⟨74, 0⟩, some .ErrUnexpectedEOF⟩ ∧
      (FindResult.mk none ⟨74, 0⟩ (some .ErrUnexpectedEOF)).range.Length = 0 :=
  ⟨by decide,
    (failure_outputs ⟨List.replicate 74 1⟩ truncatedFirstFirmware
      ⟨none, ⟨74, 0⟩, some .ErrUnexpectedEOF⟩ (.incorrectSignature 16843009)
      .ErrUnexpectedEOF).1 (by decide),
    by decide,
    ((failure_outputs ⟨List.replicate 74 1⟩ truncatedFirstFirmware
      ⟨none, ⟨74, 0⟩, some .ErrUnexpectedEOF⟩ (.incorrectSignature 16843009)
      .ErrUnexpectedEOF).2 (by decide) (by decide)).2.1⟩

/-! ## C17 -/

/-- C17: from a reader holding `n` bytes `ParseEmbeddedFirmwareStructure` consumes
exactly `min n 74` bytes and leaves the rest unread, whether it succeeds or fails; when
it fails with the incorrect-signature error the reader has advanced by the 74 bytes of
the record although the returned count is 0. -/
theorem parse_consumption (r : Reader) :
    (ParseEmbeddedFirmwareStructure r).2.buf = r.buf.drop (min r.buf.length 74) ∧
      (ParseEmbeddedFirmwareStructure r).2.buf.length + min r.buf.length 74 = r.buf.length ∧
      ∀ v, (ParseEmbeddedFirmwareStructure r).1.err = some (.incorrectSignature v) →
        (ParseEmbeddedFirmwareStructure r).2.buf = r.buf.drop 74 ∧
        (ParseEmbeddedFirmwareStructure r).2.buf.length + 74 = r.buf.length ∧
        (ParseEmbeddedFirmwareStructure r).1.length = 0 := by
  have hbuf := Parse_reader r
  have hlen : (ParseEmbeddedFirmwareStructure r).2.buf.length + min r.buf.length 74
      = r.buf.length := by
    rw [hbuf, List.length_drop]
    omega
  refine ⟨hbuf, hlen, fun v hv => ?_⟩
  have h74 : 74 ≤ r.buf.length := by
    by_cases hl : r.buf.length < 74
    · exfalso
      exact (Parse_lt_ne_incorrectSignature r hl v) hv
    · omega
  rw [Nat.min_eq_right h74] at hbuf hlen
  exact ⟨hbuf, hlen, by rw [Parse_of_err r _ hv]⟩

/-- Witness of `parse_consumption`: 80 bytes `01` fail the signature test, 74 of them
are consumed and 6 are left. -/
theorem parse_consumption_witness :
    (ParseEmbeddedFirmwareStructure ⟨List.replicate 80 1⟩).1
        = ⟨none, 0, some (.incorrectSignature 16843009)⟩ ∧
      (ParseEmbeddedFirmwareStructure ⟨List.replicate 80 1⟩).2.buf = List.replicate 6 1 ∧
      (ParseEmbeddedFirmwareStructure ⟨List.replicate 80 1⟩).2.buf.length + 74
        = (Reader.mk (List.replicate 80 1)).buf.length :=
  ⟨by decide, by decide,
    ((parse_consumption ⟨List.replicate 80 1⟩).2.2 16843009 (by decide)).2.1⟩

end Fiano
